import Mathlib

/-!
# IfcObj: the IFC to Wavefront OBJ exporter (`src/ifcobj/IfcObj.cpp`)

A shallow embedding of `main` of `IfcObj.cpp` and a verification of its
natural-language specification.

Modelling conventions.

* The geometry library (`IfcGeomObjects`) and the material table
  (`ObjMaterials.h`) are collaborators outside this file; what they return is
  an input of the model (`World`).
* The loop is embedded over an arbitrary coordinate type `R`; a `Line` holds
  the coordinates read from the mesh and `Line.render` gives its text. The
  text the program writes is the one for `R := Coord`, the finite values of a
  `double`, with `fmtDouble`, what `operator<<` writes for a `double` on a
  stream left at its defaults.
* `int` values are integers of Lean. The subtraction of lines 97-99 is the
  32-bit one (`intSub`): on two values of type `int` the result is reduced
  into `-2^31 .. 2^31 - 1`. `/` on `int` is C++ truncating division
  (`Int.tdiv`).
* Every `fObj << ... << std::endl` statement is one `Line`.
* A run that executes undefined behaviour (an iterator advanced past the end
  of its vector) or throws (`std::string` built with a negative count) has no
  result: the model returns `none`.
-/

namespace IfcObj

/-! ## Data model -/

/-- The mesh of an entity (`o->mesh`): three flat sequences, read with stride 3. -/
structure IfcMesh (R : Type) where
  verts : List R
  normals : List R
  faces : List Int

/-- The entity returned by `IfcGeomObjects::Get()`. -/
structure IfcGeomObject (R : Type) where
  type : String
  name : String
  guid : String
  mesh : IfcMesh R

/-- One position of the library iterator: the entity `Get()` returns there and
the value `Progress()` reports while it is current. -/
structure Delivered (R : Type) where
  obj : IfcGeomObject R
  Progress : Int

/-- One line of the mesh file: what a single `fObj << ... << std::endl`
statement writes. An `f` line stores the six integers in the order written. -/
inductive Line (R : Type) where
  | comment (version : String)
  | mtllib (fnMtl : String)
  | g (name : String)
  | s1
  | usemtl (type : String)
  | v (x y z : R)
  | vn (x y z : R)
  | f (p1 n1 p2 n2 p3 n3 : Int)
  deriving DecidableEq

/-- One write to the material file. -/
inductive MtlItem where
  | comment (version : String)
  | material (text : String)
  deriving DecidableEq

/-- One write of the exporter to `std::cout`. -/
inductive Console where
  | usage
  | openError
  | parseError
  | creating
  | bar (progress : Int)
  | done
  | log (text : String)
  | took (seconds : Int)
  deriving DecidableEq

/-- A finite value of a `double`, written exactly as a decimal: the number
`num / 10 ^ scale`, negated when `neg` is set. Every finite binary
floating-point number has such a form. -/
structure Coord where
  neg : Bool
  num : Nat
  scale : Nat
  deriving DecidableEq

/-- Two decimals denote the same number. -/
def Coord.sameValue (a b : Coord) : Prop :=
  a.num * 10 ^ b.scale = b.num * 10 ^ a.scale ∧ (a.neg = b.neg ∨ a.num = 0)

instance (a b : Coord) : Decidable (a.sameValue b) := by
  unfold Coord.sameValue; infer_instance

/-- The nonnegative whole number `n` as a coordinate. -/
def Coord.ofNat (n : Nat) : Coord :=
  { neg := false, num := n, scale := 0 }

/-- Decimal digits without the zeros at the end. -/
def stripZeros (cs : List Char) : List Char :=
  (cs.reverse.dropWhile (fun c => c = '0')).reverse

/-- The six significant decimal digits of a positive whole number, rounded to
nearest with ties to even, and the number of digits before the decimal point
of the rounded number. -/
def round6 (num : Nat) : Nat × Nat :=
  let len := (Nat.toDigits 10 num).length
  if len ≤ 6 then (num * 10 ^ (6 - len), len)
  else
    let p := 10 ^ (len - 6)
    let q := num / p
    let r := num % p
    let q1 := if p < 2 * r ∨ (2 * r = p ∧ q % 2 = 1) then q + 1 else q
    if q1 = 10 ^ 6 then (10 ^ 5, len + 1) else (q1, len)

/-- Lines 88 and 94: what `fObj << x` writes for a `double`. The stream is
left at its defaults (precision 6, no `fixed` or `scientific`), which is the
`%g` conversion: six significant digits, scientific notation when the decimal
exponent is below -4 or at least 6, zeros at the end of the fraction dropped. -/
def fmtDouble (c : Coord) : String :=
  let sign : List Char := if c.neg then ['-'] else []
  if c.num = 0 then String.mk (sign ++ ['0'])
  else
    let (q, len) := round6 c.num
    let x : Int := (len : Int) - 1 - (c.scale : Int)
    let ds := Nat.toDigits 10 q
    if x < -4 ∨ 6 ≤ x then
      let frac := stripZeros (ds.drop 1)
      let e := Nat.toDigits 10 x.natAbs
      String.mk (sign ++ ds.take 1 ++ (if frac = [] then [] else '.' :: frac)
        ++ ['e', if x < 0 then '-' else '+'] ++ (if e.length < 2 then '0' :: e else e))
    else if 0 ≤ x then
      let frac := stripZeros (ds.drop (x.toNat + 1))
      String.mk (sign ++ ds.take (x.toNat + 1) ++ (if frac = [] then [] else '.' :: frac))
    else
      String.mk (sign ++ ['0', '.'] ++ List.replicate ((-x).toNat - 1) '0' ++ stripZeros ds)

/-- The text of a mesh-file line, given the formatting `fmt` of a coordinate. -/
def Line.render {R : Type} (fmt : R → String) : Line R → String
  | .comment version => "# File generated by IfcOpenShell " ++ version
  | .mtllib fnMtl => "mtllib " ++ fnMtl
  | .g name => "g " ++ name
  | .s1 => "s 1"
  | .usemtl type => "usemtl " ++ type
  | .v x y z => "v " ++ fmt x ++ " " ++ fmt y ++ " " ++ fmt z
  | .vn x y z => "vn " ++ fmt x ++ " " ++ fmt y ++ " " ++ fmt z
  | .f p1 n1 p2 n2 p3 n3 =>
      "f " ++ toString p1 ++ "//" ++ toString n1 ++ " " ++ toString p2 ++ "//" ++ toString n2
        ++ " " ++ toString p3 ++ "//" ++ toString n3

/-- Line kinds, used to count the lines of an entity block. -/
def Line.isG {R : Type} : Line R → Bool
  | .g _ => true
  | _ => false

/-- Is this the `s 1` line. -/
def Line.isS {R : Type} : Line R → Bool
  | .s1 => true
  | _ => false

/-- Is this a `usemtl` line. -/
def Line.isUsemtl {R : Type} : Line R → Bool
  | .usemtl _ => true
  | _ => false

/-- Is this a `v` line. -/
def Line.isV {R : Type} : Line R → Bool
  | .v _ _ _ => true
  | _ => false

/-- Is this a `vn` line. -/
def Line.isVn {R : Type} : Line R → Bool
  | .vn _ _ _ => true
  | _ => false

/-- Is this an `f` line. -/
def Line.isF {R : Type} : Line R → Bool
  | .f _ _ _ _ _ _ => true
  | _ => false

/-- A line of an entity block: `g`, `s`, `usemtl`, `v`, `vn` or `f`. -/
def Line.isEntityLine {R : Type} (l : Line R) : Bool :=
  l.isG || l.isS || l.isUsemtl || l.isV || l.isVn || l.isF

/-! ## The loop body (lines 75-107) -/

/-- Line 77: the entities the loop skips. -/
def isVoid {R : Type} (o : IfcGeomObject R) : Prop :=
  o.type = "IfcSpace" ∨ o.type = "IfcOpeningElement"

instance {R : Type} (o : IfcGeomObject R) : Decidable (isVoid o) := by
  unfold isVoid; infer_instance

/-- Lines 84-89: the vertex loop. Each pass reads three floats through the
iterator; a length that is not a multiple of 3 runs the iterator past `end()`. -/
def writeVerts {R : Type} : List R → Option (List (Line R))
  | [] => some []
  | x :: y :: z :: rest => (writeVerts rest).map (fun ls => Line.v x y z :: ls)
  | _ => none

/-- Lines 90-95: the normal loop. -/
def writeNormals {R : Type} : List R → Option (List (Line R))
  | [] => some []
  | x :: y :: z :: rest => (writeNormals rest).map (fun ls => Line.vn x y z :: ls)
  | _ => none

/-- The values of the type `int`. -/
def fitsInt (x : Int) : Prop :=
  -2 ^ 31 ≤ x ∧ x < 2 ^ 31

instance (x : Int) : Decidable (fitsInt x) := by
  unfold fitsInt; infer_instance

/-- Reduction of an integer into the range of `int`. -/
def toInt32 (x : Int) : Int :=
  (x + 2 ^ 31) % 2 ^ 32 - 2 ^ 31

/-- Lines 97-99: the subtraction `*(it++)-vcount` on `int`. On two values of
type `int` the difference is reduced into the range of `int`; integers that
are no values of `int` are not operands the program has, and on them the
difference is left as it is. -/
def intSub (a b : Int) : Int :=
  if fitsInt a ∧ fitsInt b then toInt32 (a - b) else a - b

/-- Lines 96-101: the face loop; every index has `vcount` subtracted and is
written twice. -/
def writeFaces {R : Type} (vcount : Int) : List Int → Option (List (Line R))
  | [] => some []
  | a :: b :: c :: rest =>
      let v1 := intSub a vcount
      let v2 := intSub b vcount
      let v3 := intSub c vcount
      (writeFaces vcount rest).map (fun ls => Line.f v1 v1 v2 v2 v3 v3 :: ls)
  | _ => none

/-- Line 78: the label of the group, the name or else the guid. -/
def label {R : Type} (o : IfcGeomObject R) : String :=
  if o.name = "" then o.guid else o.name

/-- Line 83: `vcount`, the size of the vertex vector divided by 3. -/
def vcount {R : Type} (o : IfcGeomObject R) : Int :=
  ((o.mesh.verts.length / 3 : Nat) : Int)

/-- Lines 78-101: the lines one pass of the loop body writes to the mesh file
for an entity that is not skipped. -/
def entityLines {R : Type} (o : IfcGeomObject R) : Option (List (Line R)) :=
  (writeVerts o.mesh.verts).bind fun vs =>
  (writeNormals o.mesh.normals).bind fun ns =>
  (writeFaces (vcount o) o.mesh.faces).bind fun fs =>
  some ([Line.g (label o), Line.s1, Line.usemtl o.type] ++ vs ++ ns ++ fs)

/-- The container `std::set<std::string>::insert`: the set is kept as the
strictly increasing list of its elements. -/
def setInsert (t : String) : List String → List String
  | [] => [t]
  | x :: xs =>
      if t < x then t :: x :: xs
      else if x < t then x :: setInsert t xs
      else x :: xs

/-- Line 104: the progress bar `std::string(progress,'#')` followed by
`std::string(50 - progress,' ')`; a negative count throws `std::length_error`. -/
def progressBar (progress : Int) : Option Console :=
  if 0 ≤ progress ∧ 0 ≤ 50 - progress then some (Console.bar progress) else none

/-- The text of a console write. -/
def Console.render : Console → String
  | .usage => "usage: IfcObj <filename.ifc>\n"
  | .openError => "[Error] unable to open output file for writing\n"
  | .parseError => "[Error] unable to parse .ifc file or no geometrical entities found\n"
  | .creating => "Creating geometry...\n"
  | .bar progress =>
      "\r[" ++ String.mk (List.replicate progress.toNat '#')
        ++ String.mk (List.replicate (50 - progress).toNat ' ') ++ "]"
  | .done => "\rDone creating geometry                                \n"
  | .log text => "\nLog:\n" ++ text
  | .took seconds => "\nConversion took " ++ toString seconds ++ " seconds\n"

/-- The variables the loop updates. -/
structure LoopState (R : Type) where
  fObj : List (Line R)
  materials : List String
  old_progress : Int
  cout : List Console

/-- Lines 76-105: one pass of the body of the do-while loop. -/
def loopBody {R : Type} (st : LoopState R) (p : Delivered R) : Option (LoopState R) :=
  if isVoid p.obj then some st
  else
    (entityLines p.obj).bind fun ls =>
    let progress := Int.tdiv p.Progress 2
    (if st.old_progress ≠ progress then
        (progressBar progress).map (fun b => st.cout ++ [b])
      else some st.cout).bind fun cout =>
    some { fObj := st.fObj ++ ls
           materials := setInsert p.obj.type st.materials
           old_progress := progress
           cout := cout }

/-- Lines 75-107: `do { body } while ( IfcGeomObjects::Next() )`. The body runs
on the current entity first; `Next()` then moves to the following one, if any. -/
def doWhile {R : Type} (st : LoopState R) (current : Delivered R) :
    List (Delivered R) → Option (LoopState R)
  | [] => loopBody st current
  | next :: rest => (loopBody st current).bind fun st1 => doWhile st1 next rest

/-! ## The program -/

/-- Everything `main` receives from outside: the command line, whether the two
`ofstream`s open, the macro `IFCOPENSHELL_VERSION`, the function `GetMaterial`
of `ObjMaterials.h`, and what the geometry library answers. `init` is `none`
when `IfcGeomObjects::Init` returns false; otherwise it holds the iterator
positions, the current one first: `Init` returns true only with a current
entity, and `Next()` returns false after the last one. `log` is what the
library has written to the log stream by the end of the loop, `seconds` the
value of `(int) difftime(end,start)`. -/
structure World (R : Type) where
  argc : Int
  argv1 : String
  objOpens : Bool
  mtlOpens : Bool
  IFCOPENSHELL_VERSION : String
  GetMaterial : String → String
  init : Option (Delivered R × List (Delivered R))
  log : String
  seconds : Int

/-- What a run leaves behind. -/
structure Run (R : Type) where
  status : Int
  fObj : List (Line R)
  fMtl : List MtlItem
  cout : List Console

/-- Lines 36-125: `main`. -/
def main {R : Type} (w : World R) : Option (Run R) :=
  if w.argc ≠ 2 then
    some { status := 1, fObj := [], fMtl := [], cout := [Console.usage] }
  else
    let fnMtl := w.argv1 ++ ".mtl"
    if ¬ (w.objOpens = true ∧ w.mtlOpens = true) then
      some { status := 1, fObj := [], fMtl := [], cout := [Console.openError] }
    else
      match w.init with
      | none =>
          some { status := 1, fObj := [], fMtl := [], cout := [Console.parseError] }
      | some (first, rest) =>
          let st0 : LoopState R :=
            { fObj := [Line.comment w.IFCOPENSHELL_VERSION, Line.mtllib fnMtl]
              materials := []
              old_progress := -1
              cout := [Console.creating] }
          (doWhile st0 first rest).map fun st =>
            { status := 0
              fObj := st.fObj
              fMtl := MtlItem.comment w.IFCOPENSHELL_VERSION
                        :: st.materials.map (fun t => MtlItem.material (w.GetMaterial t))
              cout := st.cout ++ [Console.done]
                        ++ (if w.log.length ≠ 0 then [Console.log w.log] else [])
                        ++ [Console.took w.seconds] }

/-- The values the progress indicator showed, in the order drawn. -/
def bars : List Console → List Int
  | [] => []
  | Console.bar p :: rest => p :: bars rest
  | _ :: rest => bars rest

/-! ## Vocabulary of the specification -/

/-- The common shape of the three stride-3 loops: `mk` builds the line of one
pass from the three values read. -/
def stride3 {α β : Type} (mk : α → α → α → β) : List α → Option (List β)
  | [] => some []
  | x :: y :: z :: rest => (stride3 mk rest).map (fun ls => mk x y z :: ls)
  | _ => none

/-- The `k`-th group of three consecutive elements of a flat sequence
(elements `3k`, `3k+1`, `3k+2`), counting from 0. -/
def nthTriple {α : Type} (xs : List α) (k : Nat) : Option (α × α × α) :=
  match xs[3 * k]?, xs[3 * k + 1]?, xs[3 * k + 2]? with
  | some x, some y, some z => some (x, y, z)
  | _, _, _ => none

/-- Modelled from the spec: the mesh type of `IfcGeomObjects.h`, which is not
part of the sources; its three flat sequences have stride 3. -/
def meshOk {R : Type} (m : IfcMesh R) : Prop :=
  m.verts.length % 3 = 0 ∧ m.normals.length % 3 = 0 ∧ m.faces.length % 3 = 0

instance {R : Type} (m : IfcMesh R) : Decidable (meshOk m) := by
  unfold meshOk; infer_instance

/-- Modelled from the spec: the invariant of the mesh type of
`IfcGeomObjects.h`, which is not part of the sources: the vertex and normal
sequences have equal length. -/
def meshInvariant {R : Type} (m : IfcMesh R) : Prop :=
  m.verts.length = m.normals.length

instance {R : Type} (m : IfcMesh R) : Decidable (meshInvariant m) := by
  unfold meshInvariant; infer_instance

/-- Modelled from the spec: the interface of the geometry library at one
iterator position, a stride-3 mesh and a completion percentage that is an
integer from 0 to 100. Outside it the loop body reads past the end of a
vector or builds a `std::string` with a negative length. -/
def Delivered.ok {R : Type} (p : Delivered R) : Prop :=
  meshOk p.obj.mesh ∧ 0 ≤ p.Progress ∧ p.Progress ≤ 100

instance {R : Type} (p : Delivered R) : Decidable p.ok := by
  unfold Delivered.ok; infer_instance

/-- The library keeps its side of the interface at every position it delivers. -/
def World.contract {R : Type} (w : World R) : Prop :=
  ∀ first rest, w.init = some (first, rest) → ∀ p ∈ first :: rest, p.ok

/-- The three conditions under which `main` returns 1. -/
def World.fails {R : Type} (w : World R) : Prop :=
  w.argc ≠ 2 ∨ (w.objOpens = false ∨ w.mtlOpens = false) ∨ w.init = none

/-- The entities the loop does not skip, in order. -/
def exported {R : Type} (ps : List (Delivered R)) : List (Delivered R) :=
  ps.filter (fun p => ¬ isVoid p.obj)

/-- The lines the loop body writes for an entity: none for a skipped one. -/
def blockOf {R : Type} (o : IfcGeomObject R) : List (Line R) :=
  if isVoid o then [] else (entityLines o).getD []

/-- The entity blocks of a sequence of iterator positions, one after the other. -/
def blocks {R : Type} : List (Delivered R) → List (Line R)
  | [] => []
  | p :: ps => blockOf p.obj ++ blocks ps

/-- The state after one pass of the loop body, when the pass completes. -/
def stepState {R : Type} (st : LoopState R) (p : Delivered R) : LoopState R :=
  if isVoid p.obj then st
  else
    { fObj := st.fObj ++ blockOf p.obj
      materials := setInsert p.obj.type st.materials
      old_progress := Int.tdiv p.Progress 2
      cout := st.cout ++
        (if st.old_progress ≠ Int.tdiv p.Progress 2 then [Console.bar (Int.tdiv p.Progress 2)]
         else []) }

/-- The contents of the material set after the loop has run over `ps`. -/
def materialSet {R : Type} (ps : List (Delivered R)) : List String :=
  (exported ps).foldl (fun m p => setInsert p.obj.type m) []

/-- The progress values computed over a run: the library percentage of each
exported entity, halved. -/
def progressValues {R : Type} (ps : List (Delivered R)) : List Int :=
  (exported ps).map (fun p => Int.tdiv p.Progress 2)

/-- The values drawn when a value is drawn exactly if it differs from the one
computed just before it (`old` before the first). -/
def redraws (old : Int) : List Int → List Int
  | [] => []
  | v :: vs => if old ≠ v then v :: redraws v vs else redraws v vs

/-- The positions defined by the `v` lines of a file, in the order written. -/
def vOf {R : Type} : List (Line R) → List (R × R × R)
  | [] => []
  | Line.v x y z :: rest => (x, y, z) :: vOf rest
  | _ :: rest => vOf rest

/-- The normals defined by the `vn` lines of a file, in the order written. -/
def vnOf {R : Type} : List (Line R) → List (R × R × R)
  | [] => []
  | Line.vn x y z :: rest => (x, y, z) :: vnOf rest
  | _ :: rest => vnOf rest

/-- The relative-index rule of the OBJ format: among the elements defined so
far, index `-k` denotes the `k`-th most recent one. -/
def relLookup {α : Type} (seen : List α) (idx : Int) : Option α :=
  if idx < 0 ∧ (-idx).toNat ≤ seen.length then seen[seen.length - (-idx).toNat]? else none

/-- The output files of a run. -/
def files {R : Type} (r : Option (Run R)) : Option (List (Line R) × List MtlItem) :=
  r.map (fun r => (r.fObj, r.fMtl))

/-! ## Concrete inputs -/

/-- A wall with 4 vertices, 4 normals and 2 triangles. -/
def wall : IfcGeomObject Int :=
  { type := "IfcWall", name := "", guid := "2O2Fr$t4X7Zf8NOew3FLOH"
    mesh := { verts := [0, 0, 0, 1, 0, 0, 1, 1, 0, 0, 1, 0]
              normals := [0, 0, 1, 0, 0, 1, 0, 0, 1, 0, 0, 1]
              faces := [0, 1, 2, 0, 2, 3] } }

/-- A space volume; the loop skips it. -/
def space : IfcGeomObject Int :=
  { type := "IfcSpace", name := "Room", guid := "0KLkXPBfvCAhoIagUAlyUM"
    mesh := { verts := [0, 0, 0], normals := [0, 0, 1], faces := [] } }

/-- An entity whose mesh has one vertex and two normals. -/
def twoNormals : IfcGeomObject Int :=
  { type := "IfcSlab", name := "Slab", guid := "1hOSvn6df7F8_7GcBWlRGQ"
    mesh := { verts := [0, 0, 0], normals := [0, 0, 1, 0, 0, 1], faces := [] } }

/-- A world in which the library delivers the given iterator positions. -/
def worldOf (first : Delivered Int) (rest : List (Delivered Int)) : World Int :=
  { argc := 2, argv1 := "model.ifc", objOpens := true, mtlOpens := true
    IFCOPENSHELL_VERSION := "0.2.0", GetMaterial := fun t => "newmtl " ++ t ++ "\n"
    init := some (first, rest), log := "", seconds := 0 }

/-- The wall with its coordinates as values of a `double`. -/
def wallD : IfcGeomObject Coord :=
  { type := "IfcWall", name := "", guid := "2O2Fr$t4X7Zf8NOew3FLOH"
    mesh := { verts := [0, 0, 0, 1, 0, 0, 1, 1, 0, 0, 1, 0].map Coord.ofNat
              normals := [0, 0, 1, 0, 0, 1, 0, 0, 1, 0, 0, 1].map Coord.ofNat
              faces := [0, 1, 2, 0, 2, 3] } }

/-- A wall with one vertex at x = 1234567, a value with seven significant
digits that a `float` holds exactly. -/
def farWall : IfcGeomObject Coord :=
  { type := "IfcWall", name := "Wall", guid := "3cUkl32yn9qRSPvBJVyWYp"
    mesh := { verts := [Coord.ofNat 1234567, Coord.ofNat 0, Coord.ofNat 0]
              normals := [Coord.ofNat 0, Coord.ofNat 0, Coord.ofNat 1]
              faces := [] } }

/-- A world with `double` coordinates in which the library delivers the given
iterator positions. -/
def worldOfD (first : Delivered Coord) (rest : List (Delivered Coord)) : World Coord :=
  { argc := 2, argv1 := "model.ifc", objOpens := true, mtlOpens := true
    IFCOPENSHELL_VERSION := "0.2.0", GetMaterial := fun t => "newmtl " ++ t ++ "\n"
    init := some (first, rest), log := "", seconds := 0 }

/-- The loop variables as `main` sets them before the loop. -/
def startState : LoopState Int :=
  { fObj := [Line.comment "0.2.0", Line.mtllib "model.ifc.mtl"]
    materials := []
    old_progress := -1
    cout := [Console.creating] }

/-- A world in which initialization fails. -/
def unparseable : World Int :=
  { argc := 2, argv1 := "broken.ifc", objOpens := true, mtlOpens := true
    IFCOPENSHELL_VERSION := "0.2.0", GetMaterial := fun t => "newmtl " ++ t ++ "\n"
    init := none, log := "", seconds := 0 }

/-! ## The stride-3 loops -/

theorem writeVerts_eq_stride3 {R : Type} :
    ∀ (n : Nat) (xs : List R), xs.length ≤ n → writeVerts xs = stride3 Line.v xs := by
  intro n
  induction n with
  | zero =>
      intro xs h
      match xs, h with
      | [], _ => simp [writeVerts, stride3]
  | succ n ih =>
      intro xs h
      match xs, h with
      | [], _ => simp [writeVerts, stride3]
      | [_], _ => simp [writeVerts, stride3]
      | [_, _], _ => simp [writeVerts, stride3]
      | x :: y :: z :: rest, h =>
          have : rest.length ≤ n := by simp at h; omega
          simp [writeVerts, stride3, ih rest this]

theorem writeNormals_eq_stride3 {R : Type} :
    ∀ (n : Nat) (xs : List R), xs.length ≤ n → writeNormals xs = stride3 Line.vn xs := by
  intro n
  induction n with
  | zero =>
      intro xs h
      match xs, h with
      | [], _ => simp [writeNormals, stride3]
  | succ n ih =>
      intro xs h
      match xs, h with
      | [], _ => simp [writeNormals, stride3]
      | [_], _ => simp [writeNormals, stride3]
      | [_, _], _ => simp [writeNormals, stride3]
      | x :: y :: z :: rest, h =>
          have : rest.length ≤ n := by simp at h; omega
          simp [writeNormals, stride3, ih rest this]

theorem writeFaces_eq_stride3 {R : Type} (vcount : Int) :
    ∀ (n : Nat) (xs : List Int), xs.length ≤ n →
      writeFaces vcount xs
        = stride3 (fun a b c => (Line.f (intSub a vcount) (intSub a vcount) (intSub b vcount)
            (intSub b vcount) (intSub c vcount) (intSub c vcount) : Line R)) xs := by
  intro n
  induction n with
  | zero =>
      intro xs h
      match xs, h with
      | [], _ => simp [writeFaces, stride3]
  | succ n ih =>
      intro xs h
      match xs, h with
      | [], _ => simp [writeFaces, stride3]
      | [_], _ => simp [writeFaces, stride3]
      | [_, _], _ => simp [writeFaces, stride3]
      | x :: y :: z :: rest, h =>
          have : rest.length ≤ n := by simp at h; omega
          simp [writeFaces, stride3, ih rest this]

theorem nthTriple_zero {α : Type} (x y z : α) (rest : List α) :
    nthTriple (x :: y :: z :: rest) 0 = some (x, y, z) := by
  simp [nthTriple]

theorem nthTriple_succ {α : Type} (x y z : α) (rest : List α) (k : Nat) :
    nthTriple (x :: y :: z :: rest) (k + 1) = nthTriple rest k := by
  have h0 : 3 * (k + 1) = 3 * k + 1 + 1 + 1 := by ring
  simp [nthTriple, h0]

theorem nthTriple_nil {α : Type} (k : Nat) : nthTriple ([] : List α) k = none := by
  simp [nthTriple]

/-- On a sequence of length `3 n` the stride-3 loop completes, runs `n` passes,
and pass `k` is built from the `k`-th group of three elements. -/
theorem stride3_spec {α β : Type} (mk : α → α → α → β) :
    ∀ (n : Nat) (xs : List α), xs.length = 3 * n →
      ∃ ys, stride3 mk xs = some ys ∧ ys.length = n ∧
        ∀ k, ys[k]? = (nthTriple xs k).map (fun t => mk t.1 t.2.1 t.2.2) := by
  intro n
  induction n with
  | zero =>
      intro xs h
      match xs, h with
      | [], _ => exact ⟨[], by simp [stride3], rfl, fun k => by simp [nthTriple_nil]⟩
  | succ n ih =>
      intro xs h
      match xs, h with
      | [], h => simp at h
      | [_], h => simp at h; omega
      | [_, _], h => simp at h; omega
      | x :: y :: z :: rest, h =>
          have hr : rest.length = 3 * n := by simp at h; omega
          obtain ⟨ys, hys, hlen, hk⟩ := ih rest hr
          refine ⟨mk x y z :: ys, by simp [stride3, hys], by simp [hlen], ?_⟩
          intro k
          cases k with
          | zero => simp [nthTriple_zero]
          | succ k => simp [nthTriple_succ, hk]

/-- A stride-3 loop over a sequence whose length is no multiple of 3 does not
complete. -/
theorem stride3_none {α β : Type} (mk : α → α → α → β) :
    ∀ (n : Nat) (xs : List α), xs.length ≤ n → xs.length % 3 ≠ 0 → stride3 mk xs = none := by
  intro n
  induction n with
  | zero =>
      intro xs h h3
      match xs, h with
      | [], _ => simp at h3
  | succ n ih =>
      intro xs h h3
      match xs, h with
      | [], _ => simp at h3
      | [_], _ => simp [stride3]
      | [_, _], _ => simp [stride3]
      | x :: y :: z :: rest, h =>
          have hr : rest.length ≤ n := by simp at h; omega
          have h3r : rest.length % 3 ≠ 0 := by simp at h3; omega
          simp [stride3, ih rest hr h3r]

theorem length_eq_three_mul {α : Type} (xs : List α) (h : xs.length % 3 = 0) :
    xs.length = 3 * (xs.length / 3) := by omega

/-- The vertex loop on a stride-3 sequence. -/
theorem writeVerts_spec {R : Type} (xs : List R) (h : xs.length % 3 = 0) :
    ∃ vs, writeVerts xs = some vs ∧ vs.length = xs.length / 3 ∧
      ∀ k, vs[k]? = (nthTriple xs k).map (fun t => Line.v t.1 t.2.1 t.2.2) := by
  rw [writeVerts_eq_stride3 xs.length xs le_rfl]
  exact stride3_spec Line.v (xs.length / 3) xs (length_eq_three_mul xs h)

/-- The normal loop on a stride-3 sequence. -/
theorem writeNormals_spec {R : Type} (xs : List R) (h : xs.length % 3 = 0) :
    ∃ ns, writeNormals xs = some ns ∧ ns.length = xs.length / 3 ∧
      ∀ k, ns[k]? = (nthTriple xs k).map (fun t => Line.vn t.1 t.2.1 t.2.2) := by
  rw [writeNormals_eq_stride3 xs.length xs le_rfl]
  exact stride3_spec Line.vn (xs.length / 3) xs (length_eq_three_mul xs h)

/-- The face loop on a stride-3 sequence. -/
theorem writeFaces_spec {R : Type} (n : Int) (xs : List Int) (h : xs.length % 3 = 0) :
    ∃ fs : List (Line R), writeFaces n xs = some fs ∧ fs.length = xs.length / 3 ∧
      ∀ k, fs[k]? = (nthTriple xs k).map
        (fun t => Line.f (intSub t.1 n) (intSub t.1 n) (intSub t.2.1 n) (intSub t.2.1 n)
          (intSub t.2.2 n) (intSub t.2.2 n)) := by
  rw [writeFaces_eq_stride3 n xs.length xs le_rfl]
  exact stride3_spec _ (xs.length / 3) xs (length_eq_three_mul xs h)

/-! ## The loop -/

theorem entityLines_of {R : Type} (o : IfcGeomObject R) (vs ns fs : List (Line R))
    (hv : writeVerts o.mesh.verts = some vs) (hn : writeNormals o.mesh.normals = some ns)
    (hf : writeFaces (vcount o) o.mesh.faces = some fs) :
    entityLines o
      = some ([Line.g (label o), Line.s1, Line.usemtl o.type]
          ++ vs ++ ns ++ fs) := by
  unfold entityLines
  simp only [hv, hn, hf]
  rfl

theorem entityLines_total {R : Type} (o : IfcGeomObject R) (h : meshOk o.mesh) :
    ∃ ls, entityLines o = some ls := by
  obtain ⟨vs, hv, _⟩ := writeVerts_spec o.mesh.verts h.1
  obtain ⟨ns, hn, _⟩ := writeNormals_spec o.mesh.normals h.2.1
  obtain ⟨fs, hf, _⟩ :=
    writeFaces_spec (R := R) (vcount o) o.mesh.faces h.2.2
  exact ⟨_, entityLines_of o vs ns fs hv hn hf⟩

theorem blockOf_of_entityLines {R : Type} (o : IfcGeomObject R) (ls : List (Line R))
    (hv : ¬ isVoid o) (h : entityLines o = some ls) : blockOf o = ls := by
  simp [blockOf, hv, h]

theorem entityLines_eq_blockOf {R : Type} (o : IfcGeomObject R) (hv : ¬ isVoid o)
    (h : meshOk o.mesh) : entityLines o = some (blockOf o) := by
  obtain ⟨ls, hls⟩ := entityLines_total o h
  rw [blockOf_of_entityLines o ls hv hls, hls]

theorem blockOf_void {R : Type} (o : IfcGeomObject R) (hv : isVoid o) : blockOf o = [] := by
  simp [blockOf, hv]

theorem tdiv_two_range (a : Int) (h0 : 0 ≤ a) (h1 : a ≤ 100) :
    0 ≤ Int.tdiv a 2 ∧ Int.tdiv a 2 ≤ 50 := by
  rw [Int.tdiv_eq_ediv h0 (by decide)]
  omega

theorem loopBody_void {R : Type} (st : LoopState R) (p : Delivered R) (hv : isVoid p.obj) :
    loopBody st p = some st := by
  simp [loopBody, hv]

theorem stepState_void {R : Type} (st : LoopState R) (p : Delivered R) (hv : isVoid p.obj) :
    stepState st p = st := by
  simp [stepState, hv]

/-- One pass of the loop body on an entity that keeps the contract. -/
theorem loopBody_eq_stepState {R : Type} (st : LoopState R) (p : Delivered R) (h : p.ok) :
    loopBody st p = some (stepState st p) := by
  by_cases hv : isVoid p.obj
  · rw [loopBody_void st p hv, stepState_void st p hv]
  · have hl := entityLines_eq_blockOf p.obj hv h.1
    have hr := tdiv_two_range p.Progress h.2.1 h.2.2
    have hb : progressBar (Int.tdiv p.Progress 2) = some (Console.bar (Int.tdiv p.Progress 2)) := by
      have : 0 ≤ 50 - Int.tdiv p.Progress 2 := by omega
      simp [progressBar, hr.1, this]
    by_cases hd : st.old_progress = Int.tdiv p.Progress 2
    · simp [loopBody, stepState, hv, hl, hd]
    · simp [loopBody, stepState, hv, hl, hd, hb]

/-- The do-while loop on a sequence that keeps the contract: it completes, and
its final state is the fold of the passes. -/
theorem doWhile_eq_foldl {R : Type} :
    ∀ (ps : List (Delivered R)) (st : LoopState R) (p : Delivered R),
      (∀ q ∈ p :: ps, q.ok) → doWhile st p ps = some ((p :: ps).foldl stepState st) := by
  intro ps
  induction ps with
  | nil =>
      intro st p h
      simpa [doWhile] using loopBody_eq_stepState st p (h p (by simp))
  | cons q qs ih =>
      intro st p h
      have hp := loopBody_eq_stepState st p (h p (by simp))
      have hq := ih (stepState st p) q (fun r hr => h r (List.mem_cons_of_mem _ hr))
      simp [doWhile, hp, hq]

theorem foldl_stepState_fObj {R : Type} :
    ∀ (ps : List (Delivered R)) (st : LoopState R),
      (ps.foldl stepState st).fObj = st.fObj ++ blocks ps := by
  intro ps
  induction ps with
  | nil => intro st; simp [blocks]
  | cons p ps ih =>
      intro st
      rw [List.foldl_cons, ih]
      by_cases hv : isVoid p.obj
      · simp [stepState, hv, blocks, blockOf]
      · simp [stepState, hv, blocks]

theorem blocks_append {R : Type} (xs ys : List (Delivered R)) :
    blocks (xs ++ ys) = blocks xs ++ blocks ys := by
  induction xs with
  | nil => simp [blocks]
  | cons x xs ih => simp [blocks, ih]

theorem foldl_stepState_materials {R : Type} :
    ∀ (ps : List (Delivered R)) (st : LoopState R),
      (ps.foldl stepState st).materials
        = (exported ps).foldl (fun m p => setInsert p.obj.type m) st.materials := by
  intro ps
  induction ps with
  | nil => intro st; simp [exported]
  | cons p ps ih =>
      intro st
      rw [List.foldl_cons, ih]
      by_cases hv : isVoid p.obj
      · simp [stepState, hv, exported]
      · simp [stepState, hv, exported]

theorem bars_append (xs ys : List Console) : bars (xs ++ ys) = bars xs ++ bars ys := by
  induction xs with
  | nil => simp [bars]
  | cons x xs ih => cases x <;> simp [bars, ih]

theorem foldl_stepState_bars {R : Type} :
    ∀ (ps : List (Delivered R)) (st : LoopState R),
      bars (ps.foldl stepState st).cout
        = bars st.cout ++ redraws st.old_progress (progressValues ps) := by
  intro ps
  induction ps with
  | nil => intro st; simp [progressValues, exported, redraws]
  | cons p ps ih =>
      intro st
      rw [List.foldl_cons, ih]
      by_cases hv : isVoid p.obj
      · simp [stepState, hv, progressValues, exported]
      · by_cases hd : st.old_progress = Int.tdiv p.Progress 2
        · simp [stepState, hv, progressValues, exported, redraws, hd]
        · simp [stepState, hv, progressValues, exported, redraws, hd, bars_append, bars]

/-- A skipped entity at the head of the sequence leaves the loop as it is on
the remaining entities. -/
theorem doWhile_skip_head {R : Type} (st : LoopState R) (e y : Delivered R)
    (ys : List (Delivered R)) (hv : isVoid e.obj) :
    doWhile st e (y :: ys) = doWhile st y ys := by
  simp [doWhile, loopBody_void st e hv]

/-- A skipped entity after the head of the sequence leaves the loop as it is on
the remaining entities. -/
theorem doWhile_skip_tail {R : Type} (e : Delivered R) (ys : List (Delivered R))
    (hv : isVoid e.obj) :
    ∀ (xs : List (Delivered R)) (st : LoopState R) (x : Delivered R),
      doWhile st x (xs ++ e :: ys) = doWhile st x (xs ++ ys) := by
  intro xs
  induction xs with
  | nil =>
      intro st x
      cases ys with
      | nil =>
          simp only [List.nil_append, doWhile]
          cases h : loopBody st x with
          | none => rfl
          | some st1 => simp [loopBody_void st1 e hv]
      | cons y ys =>
          simp only [List.nil_append, doWhile]
          cases h : loopBody st x with
          | none => rfl
          | some st1 => simp [loopBody_void st1 e hv]
  | cons a as ih =>
      intro st x
      simp only [List.cons_append, doWhile]
      cases h : loopBody st x with
      | none => rfl
      | some st1 => simp [ih st1 a]

/-! ## The material set -/

theorem setInsert_cons (t x : String) (xs : List String) :
    setInsert t (x :: xs)
      = if t < x then t :: x :: xs else if x < t then x :: setInsert t xs else x :: xs := by
  rw [setInsert]

theorem mem_setInsert (t a : String) :
    ∀ l : List String, a ∈ setInsert t l ↔ a = t ∨ a ∈ l := by
  intro l
  induction l with
  | nil => simp [setInsert]
  | cons x xs ih =>
      rw [setInsert_cons]
      by_cases h1 : t < x
      · simp [h1]
      · by_cases h2 : x < t
        · simp only [h1, h2, if_true, if_false, List.mem_cons, ih]
          tauto
        · have hx : t = x := le_antisymm (not_lt.mp h2) (not_lt.mp h1)
          simp only [h1, h2, if_false, List.mem_cons]
          rw [hx]
          tauto

theorem sorted_setInsert (t : String) :
    ∀ l : List String, l.Sorted (· < ·) → (setInsert t l).Sorted (· < ·) := by
  intro l
  induction l with
  | nil => intro _; simp [setInsert]
  | cons x xs ih =>
      intro hs
      have hx := List.sorted_cons.mp hs
      rw [setInsert_cons]
      by_cases h1 : t < x
      · simp only [h1, if_true]
        refine List.sorted_cons.mpr ⟨?_, hs⟩
        intro b hb
        rcases List.mem_cons.mp hb with hb | hb
        · rw [hb]; exact h1
        · exact lt_trans h1 (hx.1 b hb)
      · by_cases h2 : x < t
        · simp only [h1, h2, if_true, if_false]
          refine List.sorted_cons.mpr ⟨?_, ih hx.2⟩
          intro b hb
          rcases (mem_setInsert t b xs).mp hb with hb | hb
          · rw [hb]; exact h2
          · exact hx.1 b hb
        · simpa only [h1, h2, if_false] using hs

theorem mem_foldl_setInsert {R : Type} (a : String) :
    ∀ (ps : List (Delivered R)) (m : List String),
      a ∈ ps.foldl (fun m p => setInsert p.obj.type m) m ↔ a ∈ m ∨ ∃ p ∈ ps, p.obj.type = a := by
  intro ps
  induction ps with
  | nil => intro m; simp
  | cons p ps ih =>
      intro m
      rw [List.foldl_cons, ih, mem_setInsert]
      constructor
      · rintro ((h | h) | ⟨q, hq, h⟩)
        · exact Or.inr ⟨p, by simp, h.symm⟩
        · exact Or.inl h
        · exact Or.inr ⟨q, List.mem_cons_of_mem _ hq, h⟩
      · rintro (h | ⟨q, hq, h⟩)
        · exact Or.inl (Or.inr h)
        · rcases List.mem_cons.mp hq with hq | hq
          · exact Or.inl (Or.inl (by rw [← h, hq]))
          · exact Or.inr ⟨q, hq, h⟩

theorem sorted_foldl_setInsert {R : Type} :
    ∀ (ps : List (Delivered R)) (m : List String), m.Sorted (· < ·) →
      (ps.foldl (fun m p => setInsert p.obj.type m) m).Sorted (· < ·) := by
  intro ps
  induction ps with
  | nil => intro m h; simpa using h
  | cons p ps ih =>
      intro m h
      rw [List.foldl_cons]
      exact ih _ (sorted_setInsert _ m h)

/-- The material set holds exactly the type tags of the exported entities. -/
theorem mem_materialSet {R : Type} (ps : List (Delivered R)) (t : String) :
    t ∈ materialSet ps ↔ ∃ p ∈ ps, ¬ isVoid p.obj ∧ p.obj.type = t := by
  unfold materialSet
  rw [mem_foldl_setInsert]
  simp only [List.not_mem_nil, false_or, exported, List.mem_filter, decide_eq_true_eq]
  constructor
  · rintro ⟨p, ⟨hp, hv⟩, ht⟩
    exact ⟨p, hp, hv, ht⟩
  · rintro ⟨p, hp, hv, ht⟩
    exact ⟨p, ⟨hp, hv⟩, ht⟩

theorem sorted_materialSet {R : Type} (ps : List (Delivered R)) :
    (materialSet ps).Sorted (· < ·) :=
  sorted_foldl_setInsert _ [] List.sorted_nil

theorem nodup_materialSet {R : Type} (ps : List (Delivered R)) : (materialSet ps).Nodup :=
  (sorted_materialSet ps).nodup

/-! ## The progress indicator -/

theorem redraws_chain : ∀ (vs : List Int) (old : Int), List.Chain (· ≠ ·) old (redraws old vs) := by
  intro vs
  induction vs with
  | nil => intro old; simp [redraws]
  | cons v vs ih =>
      intro old
      unfold redraws
      by_cases h : old = v
      · simpa [h] using ih v
      · simpa [h] using ih v

theorem redraws_increasing :
    ∀ (vs : List Int) (old : Int), vs.Pairwise (· ≤ ·) → (∀ v ∈ vs, old ≤ v) →
      (redraws old vs).Pairwise (· < ·) ∧ ∀ d ∈ redraws old vs, old < d := by
  intro vs
  induction vs with
  | nil => intro old _ _; simp [redraws]
  | cons v vs ih =>
      intro old hp hb
      have hp2 := List.pairwise_cons.mp hp
      have hov : old ≤ v := hb v (by simp)
      obtain ⟨ih1, ih2⟩ := ih v hp2.2 hp2.1
      unfold redraws
      by_cases h : old = v
      · simp only [h, ne_eq, not_true_eq_false, if_false]
        exact ⟨ih1, ih2⟩
      · have hlt : old < v := lt_of_le_of_ne hov h
        simp only [ne_eq, h, not_false_eq_true, if_true]
        refine ⟨List.pairwise_cons.mpr ⟨ih2, ih1⟩, ?_⟩
        intro d hd
        rcases List.mem_cons.mp hd with hd | hd
        · rw [hd]; exact hlt
        · exact lt_trans hlt (ih2 d hd)

theorem tdiv_two_mono (a b : Int) (h0 : 0 ≤ a) (h : a ≤ b) : Int.tdiv a 2 ≤ Int.tdiv b 2 := by
  rw [Int.tdiv_eq_ediv h0 (by decide), Int.tdiv_eq_ediv (le_trans h0 h) (by decide)]
  omega

/-! ## The program -/

/-- A run in which the arguments are right, both files open, initialization
succeeds and the library keeps the contract. -/
theorem main_ok {R : Type} (w : World R) (first : Delivered R) (rest : List (Delivered R))
    (ha : w.argc = 2) (ho : w.objOpens = true) (hm : w.mtlOpens = true)
    (hi : w.init = some (first, rest)) (hc : ∀ p ∈ first :: rest, p.ok) :
    ∃ r, main w = some r ∧ r.status = 0 ∧
      r.fObj = Line.comment w.IFCOPENSHELL_VERSION :: Line.mtllib (w.argv1 ++ ".mtl")
                :: blocks (first :: rest) ∧
      r.fMtl = MtlItem.comment w.IFCOPENSHELL_VERSION
                :: (materialSet (first :: rest)).map (fun t => MtlItem.material (w.GetMaterial t)) ∧
      bars r.cout = redraws (-1) (progressValues (first :: rest)) := by
  let st0 : LoopState R :=
    { fObj := [Line.comment w.IFCOPENSHELL_VERSION, Line.mtllib (w.argv1 ++ ".mtl")]
      materials := []
      old_progress := -1
      cout := [Console.creating] }
  have hd : doWhile st0 first rest = some ((first :: rest).foldl stepState st0) :=
    doWhile_eq_foldl rest st0 first hc
  refine ⟨{ status := 0
            fObj := ((first :: rest).foldl stepState st0).fObj
            fMtl := MtlItem.comment w.IFCOPENSHELL_VERSION
                      :: ((first :: rest).foldl stepState st0).materials.map
                          (fun t => MtlItem.material (w.GetMaterial t))
            cout := ((first :: rest).foldl stepState st0).cout ++ [Console.done]
                      ++ (if w.log.length ≠ 0 then [Console.log w.log] else [])
                      ++ [Console.took w.seconds] }, ?_, rfl, ?_, ?_, ?_⟩
  · simp only [main, ha, ho, hm, hi]
    simp only [ne_eq, not_true_eq_false, if_false, and_self, Option.map]
    rw [show doWhile _ first rest = some ((first :: rest).foldl stepState st0) from hd]
  · show ((first :: rest).foldl stepState st0).fObj = _
    rw [foldl_stepState_fObj]
    rfl
  · show _ :: List.map _ ((first :: rest).foldl stepState st0).materials = _
    rw [foldl_stepState_materials]
    rfl
  · show bars (((first :: rest).foldl stepState st0).cout ++ _ ++ _ ++ _) = _
    rw [bars_append, bars_append, bars_append, foldl_stepState_bars]
    by_cases hl : w.log.length = 0
    · simp [bars, hl, st0]
    · simp [bars, hl, st0]

/-- Two iterator contents on which the loop does the same give the same run. -/
theorem main_congr {R : Type} (w : World R) (a b : Delivered R) (as bs : List (Delivered R))
    (h : ∀ st, doWhile st a as = doWhile st b bs) :
    main { w with init := some (a, as) } = main { w with init := some (b, bs) } := by
  simp only [main, h]

/-- The run with a wrong argument count. -/
theorem main_usage {R : Type} (w : World R) (h : w.argc ≠ 2) :
    main w = some { status := 1, fObj := [], fMtl := [], cout := [Console.usage] } := by
  simp [main, h]

/-- The run in which an output file does not open. -/
theorem main_openError {R : Type} (w : World R) (ha : w.argc = 2)
    (h : w.objOpens = false ∨ w.mtlOpens = false) :
    main w = some { status := 1, fObj := [], fMtl := [], cout := [Console.openError] } := by
  have h2 : ¬ (w.objOpens = true ∧ w.mtlOpens = true) := by
    rcases h with h | h <;> simp [h]
  simp only [main, ha, ne_eq, not_true_eq_false, if_false, h2, not_false_eq_true, if_true]

/-- The run in which initialization fails. -/
theorem main_parseError {R : Type} (w : World R) (ha : w.argc = 2) (ho : w.objOpens = true)
    (hm : w.mtlOpens = true) (hi : w.init = none) :
    main w = some { status := 1, fObj := [], fMtl := [], cout := [Console.parseError] } := by
  simp [main, ha, ho, hm, hi]

/-- Every run that returns 1 has written nothing to either file. -/
theorem main_fails {R : Type} (w : World R) (h : w.fails) :
    ∃ r, main w = some r ∧ r.status = 1 ∧ r.fObj = [] ∧ r.fMtl = [] := by
  by_cases ha : w.argc = 2
  · by_cases ho : w.objOpens = false ∨ w.mtlOpens = false
    · exact ⟨_, main_openError w ha ho, rfl, rfl, rfl⟩
    · have hi : w.init = none := by
        rcases h with h | h | h
        · exact absurd ha h
        · exact absurd h ho
        · exact h
      have ho1 : w.objOpens = true := by
        cases hb : w.objOpens
        · exact absurd (Or.inl hb) ho
        · rfl
      have hm1 : w.mtlOpens = true := by
        cases hb : w.mtlOpens
        · exact absurd (Or.inr hb) ho
        · rfl
      exact ⟨_, main_parseError w ha ho1 hm1 hi, rfl, rfl, rfl⟩
  · exact ⟨_, main_usage w ha, rfl, rfl, rfl⟩

/-- A run whose only entity is skipped writes the two headers and nothing else. -/
theorem main_single_void {R : Type} (w : World R) (e : Delivered R) (hv : isVoid e.obj) :
    ∃ r, main { w with init := some (e, []) } = some r ∧
      (∀ l ∈ r.fObj, l.isEntityLine = false) ∧ ∀ t, MtlItem.material t ∉ r.fMtl := by
  by_cases hf : World.fails { w with init := some (e, []) }
  · obtain ⟨r, hr, _, h1, h2⟩ := main_fails _ hf
    exact ⟨r, hr, by simp [h1], by simp [h2]⟩
  · have ha : w.argc = 2 := by
      by_contra hne
      exact hf (Or.inl hne)
    have ho : w.objOpens = true := by
      cases hb : w.objOpens
      · exact absurd (Or.inr (Or.inl (Or.inl hb))) hf
      · rfl
    have hm : w.mtlOpens = true := by
      cases hb : w.mtlOpens
      · exact absurd (Or.inr (Or.inl (Or.inr hb))) hf
      · rfl
    refine ⟨{ status := 0
              fObj := [Line.comment w.IFCOPENSHELL_VERSION, Line.mtllib (w.argv1 ++ ".mtl")]
              fMtl := [MtlItem.comment w.IFCOPENSHELL_VERSION]
              cout := [Console.creating] ++ [Console.done]
                        ++ (if w.log.length ≠ 0 then [Console.log w.log] else [])
                        ++ [Console.took w.seconds] }, ?_, ?_, ?_⟩
    · simp [main, ha, ho, hm, doWhile, loopBody_void _ e hv]
    · intro l hl
      simp at hl
      rcases hl with hl | hl <;> rw [hl] <;> rfl
    · intro t ht
      simp at ht

/-- A run that completes without one of the three failure conditions returns 0. -/
theorem main_status_of_not_fails {R : Type} (w : World R) (h : ¬ w.fails) (r : Run R)
    (hr : main w = some r) : r.status = 0 := by
  have ha : w.argc = 2 := by
    by_contra hne
    exact h (Or.inl hne)
  have ho : w.objOpens = true := by
    cases hb : w.objOpens
    · exact absurd (Or.inr (Or.inl (Or.inl hb))) h
    · rfl
  have hm : w.mtlOpens = true := by
    cases hb : w.mtlOpens
    · exact absurd (Or.inr (Or.inl (Or.inr hb))) h
    · rfl
  cases hi : w.init with
  | none => exact absurd (Or.inr (Or.inr hi)) h
  | some fr =>
      obtain ⟨first, rest⟩ := fr
      simp only [main, ha, ho, hm, hi, ne_eq, not_true_eq_false, if_false, and_self] at hr
      cases hd : doWhile
          { fObj := [Line.comment w.IFCOPENSHELL_VERSION, Line.mtllib (w.argv1 ++ ".mtl")]
            materials := []
            old_progress := -1
            cout := [Console.creating] } first rest with
      | none => simp [hd] at hr
      | some st =>
          simp [hd] at hr
          rw [← hr]

/-- A run without failure condition, on a library that keeps the contract. -/
theorem main_of_not_fails {R : Type} (w : World R) (h : ¬ w.fails) (hc : w.contract) :
    ∃ r, main w = some r ∧ r.status = 0 := by
  have ha : w.argc = 2 := by
    by_contra hne
    exact h (Or.inl hne)
  have ho : w.objOpens = true := by
    cases hb : w.objOpens
    · exact absurd (Or.inr (Or.inl (Or.inl hb))) h
    · rfl
  have hm : w.mtlOpens = true := by
    cases hb : w.mtlOpens
    · exact absurd (Or.inr (Or.inl (Or.inr hb))) h
    · rfl
  cases hi : w.init with
  | none => exact absurd (Or.inr (Or.inr hi)) h
  | some fr =>
      obtain ⟨first, rest⟩ := fr
      obtain ⟨r, hr, hs, _⟩ := main_ok w first rest ha ho hm hi (hc first rest hi)
      exact ⟨r, hr, hs⟩

theorem pos_ok_of_mem_exported {R : Type} (ps : List (Delivered R)) (h : ∀ p ∈ ps, p.ok)
    (p : Delivered R) (hp : p ∈ exported ps) : p.ok := by
  simp only [exported, List.mem_filter] at hp
  exact h p hp.1

theorem progressValues_nonneg {R : Type} (ps : List (Delivered R)) (h : ∀ p ∈ ps, p.ok) :
    ∀ v ∈ progressValues ps, (-1 : Int) ≤ v := by
  intro v hv
  simp only [progressValues, List.mem_map] at hv
  obtain ⟨p, hp, rfl⟩ := hv
  have hok := pos_ok_of_mem_exported ps h p hp
  have := tdiv_two_range p.Progress hok.2.1 hok.2.2
  omega

theorem progressValues_sorted {R : Type} (ps : List (Delivered R)) (h : ∀ p ∈ ps, p.ok)
    (hs : ((exported ps).map (fun p => p.Progress)).Pairwise (· ≤ ·)) :
    (progressValues ps).Pairwise (· ≤ ·) := by
  unfold progressValues
  rw [List.pairwise_map] at hs ⊢
  refine List.Pairwise.imp_of_mem ?_ hs
  intro a b ha _ hab
  exact tdiv_two_mono a.Progress b.Progress (pos_ok_of_mem_exported ps h a ha).2.1 hab

/-! ## Counting the lines of a block -/

/-- Every line a stride-3 loop writes is built from three elements of the
sequence. -/
theorem stride3_mem {α β : Type} (mk : α → α → α → β) :
    ∀ (n : Nat) (xs : List α), xs.length ≤ n → ∀ ys, stride3 mk xs = some ys →
      ∀ l ∈ ys, ∃ a b c, a ∈ xs ∧ b ∈ xs ∧ c ∈ xs ∧ l = mk a b c := by
  intro n
  induction n with
  | zero =>
      intro xs h ys hys l hl
      match xs, h with
      | [], _ =>
          simp [stride3] at hys
          rw [hys] at hl
          simp at hl
  | succ n ih =>
      intro xs h ys hys l hl
      match xs, h with
      | [], _ =>
          simp [stride3] at hys
          rw [hys] at hl
          simp at hl
      | [_], _ => simp [stride3] at hys
      | [_, _], _ => simp [stride3] at hys
      | x :: y :: z :: rest, h =>
          have hr : rest.length ≤ n := by simp at h; omega
          cases hrest : stride3 mk rest with
          | none => simp [stride3, hrest] at hys
          | some ys1 =>
              simp [stride3, hrest] at hys
              rw [← hys] at hl
              rcases List.mem_cons.mp hl with hl | hl
              · exact ⟨x, y, z, by simp, by simp, by simp, hl⟩
              · obtain ⟨a, b, c, ha, hb, hc, he⟩ := ih rest hr ys1 hrest l hl
                exact ⟨a, b, c, by simp [ha], by simp [hb], by simp [hc], he⟩

theorem writeVerts_mem {R : Type} (xs : List R) (vs : List (Line R))
    (h : writeVerts xs = some vs) : ∀ l ∈ vs, ∃ x y z, l = Line.v x y z := by
  intro l hl
  rw [writeVerts_eq_stride3 xs.length xs le_rfl] at h
  obtain ⟨a, b, c, _, _, _, he⟩ := stride3_mem Line.v xs.length xs le_rfl vs h l hl
  exact ⟨a, b, c, he⟩

theorem writeNormals_mem {R : Type} (xs : List R) (ns : List (Line R))
    (h : writeNormals xs = some ns) : ∀ l ∈ ns, ∃ x y z, l = Line.vn x y z := by
  intro l hl
  rw [writeNormals_eq_stride3 xs.length xs le_rfl] at h
  obtain ⟨a, b, c, _, _, _, he⟩ := stride3_mem Line.vn xs.length xs le_rfl ns h l hl
  exact ⟨a, b, c, he⟩

theorem writeFaces_mem {R : Type} (n : Int) (xs : List Int) (fs : List (Line R))
    (h : writeFaces n xs = some fs) :
    ∀ l ∈ fs, ∃ a b c, a ∈ xs ∧ b ∈ xs ∧ c ∈ xs ∧
      l = Line.f (intSub a n) (intSub a n) (intSub b n) (intSub b n) (intSub c n)
        (intSub c n) := by
  intro l hl
  rw [writeFaces_eq_stride3 n xs.length xs le_rfl] at h
  exact stride3_mem _ xs.length xs le_rfl fs h l hl

/-- The number of lines of each kind in an entity block. -/
theorem count_block {R : Type} (name type : String) (vs ns fs : List (Line R))
    (hvs : ∀ l ∈ vs, ∃ x y z, l = Line.v x y z)
    (hns : ∀ l ∈ ns, ∃ x y z, l = Line.vn x y z)
    (hfs : ∀ l ∈ fs, ∃ p1 n1 p2 n2 p3 n3, l = Line.f p1 n1 p2 n2 p3 n3) :
    ([Line.g name, Line.s1, Line.usemtl type] ++ vs ++ ns ++ fs).countP Line.isG = 1 ∧
    ([Line.g name, Line.s1, Line.usemtl type] ++ vs ++ ns ++ fs).countP Line.isS = 1 ∧
    ([Line.g name, Line.s1, Line.usemtl type] ++ vs ++ ns ++ fs).countP Line.isUsemtl = 1 ∧
    ([Line.g name, Line.s1, Line.usemtl type] ++ vs ++ ns ++ fs).countP Line.isV = vs.length ∧
    ([Line.g name, Line.s1, Line.usemtl type] ++ vs ++ ns ++ fs).countP Line.isVn = ns.length ∧
    ([Line.g name, Line.s1, Line.usemtl type] ++ vs ++ ns ++ fs).countP Line.isF = fs.length := by
  have zero : ∀ (k : Line R → Bool) (ls : List (Line R)), (∀ l ∈ ls, k l = false) →
      ls.countP k = 0 := by
    intro k ls h
    rw [List.countP_eq_zero]
    intro l hl
    simp [h l hl]
  have full : ∀ (k : Line R → Bool) (ls : List (Line R)), (∀ l ∈ ls, k l = true) →
      ls.countP k = ls.length := by
    intro k ls h
    rw [List.countP_eq_length]
    exact h
  have v1 : ∀ l ∈ vs, Line.isV l = true := by
    intro l hl; obtain ⟨x, y, z, rfl⟩ := hvs l hl; rfl
  have v0 : ∀ k : Line R → Bool, (∀ x y z, k (Line.v x y z) = false) → vs.countP k = 0 := by
    intro k hk
    exact zero k vs (fun l hl => by obtain ⟨x, y, z, rfl⟩ := hvs l hl; exact hk x y z)
  have n1 : ∀ l ∈ ns, Line.isVn l = true := by
    intro l hl; obtain ⟨x, y, z, rfl⟩ := hns l hl; rfl
  have n0 : ∀ k : Line R → Bool, (∀ x y z, k (Line.vn x y z) = false) → ns.countP k = 0 := by
    intro k hk
    exact zero k ns (fun l hl => by obtain ⟨x, y, z, rfl⟩ := hns l hl; exact hk x y z)
  have f1 : ∀ l ∈ fs, Line.isF l = true := by
    intro l hl; obtain ⟨p1, q1, p2, q2, p3, q3, rfl⟩ := hfs l hl; rfl
  have f0 : ∀ k : Line R → Bool, (∀ p1 q1 p2 q2 p3 q3, k (Line.f p1 q1 p2 q2 p3 q3) = false) →
      fs.countP k = 0 := by
    intro k hk
    exact zero k fs (fun l hl => by
      obtain ⟨p1, q1, p2, q2, p3, q3, rfl⟩ := hfs l hl; exact hk p1 q1 p2 q2 p3 q3)
  refine ⟨?_, ?_, ?_, ?_, ?_, ?_⟩
  · rw [List.countP_append, List.countP_append, List.countP_append,
      v0 _ (fun _ _ _ => rfl), n0 _ (fun _ _ _ => rfl), f0 _ (fun _ _ _ _ _ _ => rfl)]
    rfl
  · rw [List.countP_append, List.countP_append, List.countP_append,
      v0 _ (fun _ _ _ => rfl), n0 _ (fun _ _ _ => rfl), f0 _ (fun _ _ _ _ _ _ => rfl)]
    rfl
  · rw [List.countP_append, List.countP_append, List.countP_append,
      v0 _ (fun _ _ _ => rfl), n0 _ (fun _ _ _ => rfl), f0 _ (fun _ _ _ _ _ _ => rfl)]
    rfl
  · rw [List.countP_append, List.countP_append, List.countP_append,
      full _ vs v1, n0 _ (fun _ _ _ => rfl), f0 _ (fun _ _ _ _ _ _ => rfl)]
    simp [List.countP_cons, Line.isV]
  · rw [List.countP_append, List.countP_append, List.countP_append,
      v0 _ (fun _ _ _ => rfl), full _ ns n1, f0 _ (fun _ _ _ _ _ _ => rfl)]
    simp [List.countP_cons, Line.isVn]
  · rw [List.countP_append, List.countP_append, List.countP_append,
      v0 _ (fun _ _ _ => rfl), n0 _ (fun _ _ _ => rfl), full _ fs f1]
    simp [List.countP_cons, Line.isF]

/-- The shape of the block of an entity with a stride-3 mesh. -/
theorem entityLines_shape {R : Type} (o : IfcGeomObject R) (h : meshOk o.mesh) :
    ∃ vs ns fs, writeVerts o.mesh.verts = some vs ∧ writeNormals o.mesh.normals = some ns ∧
      writeFaces (vcount o) o.mesh.faces = some fs ∧
      entityLines o
        = some ([Line.g (label o), Line.s1, Line.usemtl o.type]
            ++ vs ++ ns ++ fs) := by
  obtain ⟨vs, hv, _⟩ := writeVerts_spec o.mesh.verts h.1
  obtain ⟨ns, hn, _⟩ := writeNormals_spec o.mesh.normals h.2.1
  obtain ⟨fs, hf, _⟩ :=
    writeFaces_spec (R := R) (vcount o) o.mesh.faces h.2.2
  exact ⟨vs, ns, fs, hv, hn, hf, entityLines_of o vs ns fs hv hn hf⟩

/-! ## Relative indices -/

theorem vOf_append {R : Type} (xs ys : List (Line R)) : vOf (xs ++ ys) = vOf xs ++ vOf ys := by
  induction xs with
  | nil => simp [vOf]
  | cons x xs ih => cases x <;> simp [vOf, ih]

theorem vnOf_append {R : Type} (xs ys : List (Line R)) :
    vnOf (xs ++ ys) = vnOf xs ++ vnOf ys := by
  induction xs with
  | nil => simp [vnOf]
  | cons x xs ih => cases x <;> simp [vnOf, ih]

theorem vOf_eq_nil {R : Type} (ls : List (Line R)) (h : ∀ l ∈ ls, l.isV = false) :
    vOf ls = [] := by
  induction ls with
  | nil => rfl
  | cons x xs ih =>
      have hx := h x (by simp)
      have hxs := ih (fun l hl => h l (List.mem_cons_of_mem _ hl))
      cases x <;> simp [vOf, hxs, Line.isV] at hx ⊢

theorem vnOf_eq_nil {R : Type} (ls : List (Line R)) (h : ∀ l ∈ ls, l.isVn = false) :
    vnOf ls = [] := by
  induction ls with
  | nil => rfl
  | cons x xs ih =>
      have hx := h x (by simp)
      have hxs := ih (fun l hl => h l (List.mem_cons_of_mem _ hl))
      cases x <;> simp [vnOf, hxs, Line.isVn] at hx ⊢

theorem map_vOf {R : Type} (ls : List (Line R)) (h : ∀ l ∈ ls, ∃ x y z, l = Line.v x y z) :
    (vOf ls).map (fun t => Line.v t.1 t.2.1 t.2.2) = ls := by
  induction ls with
  | nil => rfl
  | cons x xs ih =>
      obtain ⟨a, b, c, rfl⟩ := h x (by simp)
      simp [vOf, ih (fun l hl => h l (List.mem_cons_of_mem _ hl))]

theorem map_vnOf {R : Type} (ls : List (Line R)) (h : ∀ l ∈ ls, ∃ x y z, l = Line.vn x y z) :
    (vnOf ls).map (fun t => Line.vn t.1 t.2.1 t.2.2) = ls := by
  induction ls with
  | nil => rfl
  | cons x xs ih =>
      obtain ⟨a, b, c, rfl⟩ := h x (by simp)
      simp [vnOf, ih (fun l hl => h l (List.mem_cons_of_mem _ hl))]

/-- The positions defined by the `v` lines of a block are the groups of three
floats of the vertex sequence. -/
theorem vOf_writeVerts {R : Type} (xs : List R) (vs : List (Line R)) (h3 : xs.length % 3 = 0)
    (h : writeVerts xs = some vs) :
    (vOf vs).length = xs.length / 3 ∧ ∀ k, (vOf vs)[k]? = nthTriple xs k := by
  obtain ⟨vs1, e, hlen, hk⟩ := writeVerts_spec xs h3
  rw [h] at e
  cases e
  have hm := map_vOf vs (writeVerts_mem xs vs h)
  have hinj : Function.Injective (fun t : R × R × R => Line.v t.1 t.2.1 t.2.2) := by
    intro a b hab
    simp only [Line.v.injEq] at hab
    exact Prod.ext hab.1 (Prod.ext hab.2.1 hab.2.2)
  constructor
  · rw [← hlen]
    conv_rhs => rw [← hm]
    simp
  · intro k
    apply Option.map_injective hinj
    rw [← hk k]
    conv_rhs => rw [← hm]
    simp

/-- The normals defined by the `vn` lines of a block are the groups of three
floats of the normal sequence. -/
theorem vnOf_writeNormals {R : Type} (xs : List R) (ns : List (Line R))
    (h3 : xs.length % 3 = 0) (h : writeNormals xs = some ns) :
    (vnOf ns).length = xs.length / 3 ∧ ∀ k, (vnOf ns)[k]? = nthTriple xs k := by
  obtain ⟨ns1, e, hlen, hk⟩ := writeNormals_spec xs h3
  rw [h] at e
  cases e
  have hm := map_vnOf ns (writeNormals_mem xs ns h)
  have hinj : Function.Injective (fun t : R × R × R => Line.vn t.1 t.2.1 t.2.2) := by
    intro a b hab
    simp only [Line.vn.injEq] at hab
    exact Prod.ext hab.1 (Prod.ext hab.2.1 hab.2.2)
  constructor
  · rw [← hlen]
    conv_rhs => rw [← hm]
    simp
  · intro k
    apply Option.map_injective hinj
    rw [← hk k]
    conv_rhs => rw [← hm]
    simp

/-- With `n` elements defined last, the relative index `i - n` denotes the
`i`-th of them, whatever was defined before. -/
theorem relLookup_append {α : Type} (before own : List α) (i : Int) (h0 : 0 ≤ i)
    (h1 : i < own.length) :
    relLookup (before ++ own) (i - own.length) = own[i.toNat]? := by
  have hc : i - (own.length : Int) < 0 ∧ (-(i - (own.length : Int))).toNat ≤ (before ++ own).length := by
    rw [List.length_append]
    omega
  have hidx : (before ++ own).length - (-(i - (own.length : Int))).toNat
      = before.length + i.toNat := by
    rw [List.length_append]
    omega
  unfold relLookup
  rw [if_pos hc, hidx, List.getElem?_append_right (by omega)]
  congr 1
  omega

/-- An `f` line of a list that starts with lines that are no `f` lines lies in
the rest of the list. -/
theorem split_at_f {R : Type} (front fs b1 b2 : List (Line R)) (l : Line R)
    (hl : l.isF = true) (hfront : ∀ x ∈ front, x.isF = false)
    (h : front ++ fs = b1 ++ l :: b2) :
    ∃ fs1, b1 = front ++ fs1 ∧ fs = fs1 ++ l :: b2 := by
  rcases List.append_eq_append_iff.mp h with ⟨a, h1, h2⟩ | ⟨c, h1, h2⟩
  · exact ⟨a, h1, h2⟩
  · cases c with
    | nil =>
        refine ⟨[], by simpa using h1.symm, by simpa using h2.symm⟩
    | cons x c =>
        simp only [List.cons_append, List.cons.injEq] at h2
        have hx : l ∈ front := by
          rw [h1, h2.1]
          simp
        have := hfront l hx
        rw [hl] at this
        cases this

/-- A block that is written consists of the three header lines and the
output of the three loops. -/
theorem entityLines_inv {R : Type} (o : IfcGeomObject R) (ls : List (Line R))
    (h : entityLines o = some ls) :
    ∃ vs ns fs, writeVerts o.mesh.verts = some vs ∧ writeNormals o.mesh.normals = some ns ∧
      writeFaces (vcount o) o.mesh.faces = some fs ∧
      ls = [Line.g (label o), Line.s1, Line.usemtl o.type] ++ vs ++ ns ++ fs := by
  unfold entityLines at h
  cases hv : writeVerts o.mesh.verts with
  | none => simp [hv] at h
  | some vs =>
      cases hn : writeNormals o.mesh.normals with
      | none => simp [hv, hn] at h
      | some ns =>
          cases hf : writeFaces (R := R) (vcount o) o.mesh.faces with
          | none => simp [hv, hn, hf] at h
          | some fs =>
              simp only [hv, hn, hf, Option.bind, Option.some.injEq] at h
              exact ⟨vs, ns, fs, rfl, rfl, rfl, h.symm⟩

/-- The header lines, the `v` lines and the `vn` lines of a block are no `f`
lines. -/
theorem front_no_f {R : Type} (o : IfcGeomObject R) (vs ns : List (Line R))
    (hv : writeVerts o.mesh.verts = some vs) (hn : writeNormals o.mesh.normals = some ns) :
    ∀ l ∈ [Line.g (label o), Line.s1, Line.usemtl o.type] ++ vs ++ ns, l.isF = false := by
  intro l hl
  rcases List.mem_append.mp hl with hl | hl
  · rcases List.mem_append.mp hl with hl | hl
    · simp only [List.mem_cons, List.not_mem_nil, or_false] at hl
      rcases hl with hl | hl | hl <;> rw [hl] <;> rfl
    · obtain ⟨x, y, z, rfl⟩ := writeVerts_mem _ vs hv l hl
      rfl
  · obtain ⟨x, y, z, rfl⟩ := writeNormals_mem _ ns hn l hl
    rfl

/-! ## Subtraction on `int` -/

theorem toInt32_of_fitsInt (x : Int) (h : fitsInt x) : toInt32 x = x := by
  unfold toInt32
  unfold fitsInt at h
  omega

/-- Where the difference is a value of `int`, `int` subtraction gives it. -/
theorem intSub_exact (a b : Int) (h : fitsInt (a - b)) : intSub a b = a - b := by
  unfold intSub
  split
  · exact toInt32_of_fitsInt _ h
  · rfl

/-- An index of the vertex range minus the vertex count. -/
theorem intSub_index (i n : Int) (h0 : 0 ≤ i) (h1 : i < n) : intSub i n = i - n := by
  unfold intSub
  split
  · rename_i h
    apply toInt32_of_fitsInt
    unfold fitsInt at h ⊢
    omega
  · rfl

theorem nthTriple_mem {α : Type} (xs : List α) (k : Nat) (a b c : α)
    (h : nthTriple xs k = some (a, b, c)) : a ∈ xs ∧ b ∈ xs ∧ c ∈ xs := by
  unfold nthTriple at h
  cases h0 : xs[3 * k]? with
  | none => simp [h0] at h
  | some x =>
      cases h1 : xs[3 * k + 1]? with
      | none => simp [h0, h1] at h
      | some y =>
          cases h2 : xs[3 * k + 2]? with
          | none => simp [h0, h1, h2] at h
          | some z =>
              simp only [h0, h1, h2, Option.some.injEq, Prod.mk.injEq] at h
              obtain ⟨rfl, rfl, rfl⟩ := h
              exact ⟨List.getElem?_mem h0, List.getElem?_mem h1, List.getElem?_mem h2⟩

/-- The number of `v` and `vn` lines of a block that is written. -/
theorem block_line_counts {R : Type} (o : IfcGeomObject R)
    (h1 : o.mesh.verts.length % 3 = 0) (h2 : o.mesh.normals.length % 3 = 0)
    (ls : List (Line R)) (hls : entityLines o = some ls) :
    ls.countP Line.isV = o.mesh.verts.length / 3 ∧
      ls.countP Line.isVn = o.mesh.normals.length / 3 := by
  obtain ⟨vs, hv, hlv, _⟩ := writeVerts_spec o.mesh.verts h1
  obtain ⟨ns, hn, hln, _⟩ := writeNormals_spec o.mesh.normals h2
  obtain ⟨vs1, ns1, fs, hv1, hn1, hf, hshape⟩ := entityLines_inv o ls hls
  rw [hv] at hv1
  rw [hn] at hn1
  cases hv1
  cases hn1
  have hc := count_block (label o) o.type vs ns fs
    (writeVerts_mem _ vs hv) (writeNormals_mem _ ns hn)
    (fun l hl => by
      obtain ⟨a, b, c, _, _, _, he⟩ := writeFaces_mem _ _ fs hf l hl
      exact ⟨_, _, _, _, _, _, he⟩)
  rw [hshape, hc.2.2.2.1, hc.2.2.2.2.1, hlv, hln]
  exact ⟨rfl, rfl⟩

/-! ## The claims -/

/-- C1. An entity of type `IfcSpace` or `IfcOpeningElement` contributes nothing:
the pass of the loop body on it leaves the mesh file, the material set and
every other loop variable as they were; whenever the iterator delivers it
together with other entities (before them, between them or after them), the
mesh file and the material file are those of the same sequence without it;
and when it is the only entity delivered, the run completes with no entity
line in the mesh file and no material block in the material file. -/
theorem C1_void_entity_contributes_nothing {R : Type} (w : World R) (e : Delivered R)
    (hv : isVoid e.obj) :
    (∀ st, loopBody st e = some st) ∧
    (∀ y ys, files (main { w with init := some (e, y :: ys) })
              = files (main { w with init := some (y, ys) })) ∧
    (∀ x xs ys, files (main { w with init := some (x, xs ++ e :: ys) })
              = files (main { w with init := some (x, xs ++ ys) })) ∧
    (∃ r, main { w with init := some (e, []) } = some r ∧
      (∀ l ∈ r.fObj, l.isEntityLine = false) ∧ ∀ t, MtlItem.material t ∉ r.fMtl) := by
  refine ⟨fun st => loopBody_void st e hv, ?_, ?_, main_single_void w e hv⟩
  · intro y ys
    rw [main_congr w e y (y :: ys) ys (fun st => doWhile_skip_head st e y ys hv)]
  · intro x xs ys
    rw [main_congr w x x (xs ++ e :: ys) (xs ++ ys) (fun st => doWhile_skip_tail e ys hv xs st x)]

/-- C1 at a concrete input: the space volume between two walls. -/
theorem C1_void_entity_contributes_nothing_witness :
    files (main (worldOf ⟨wall, 40⟩ [⟨space, 70⟩, ⟨wall, 100⟩]))
      = files (main (worldOf ⟨wall, 40⟩ [⟨wall, 100⟩])) :=
  (C1_void_entity_contributes_nothing (worldOf ⟨wall, 40⟩ []) ⟨space, 70⟩
    (by decide)).2.2.1 ⟨wall, 40⟩ [] [⟨wall, 100⟩]

/-- C4. In a run that reaches the loop, on a library that keeps the contract,
the material file is the header comment followed by the block
`GetMaterial t` of each member `t` of a duplicate-free list of type tags;
a type tag is in that list exactly if it is the type of at least one
delivered entity that is not skipped. The list is in increasing order, the
order in which `std::set` is traversed. -/
theorem C4_material_file {R : Type} (w : World R) (first : Delivered R)
    (rest : List (Delivered R)) (ha : w.argc = 2) (ho : w.objOpens = true)
    (hm : w.mtlOpens = true) (hi : w.init = some (first, rest))
    (hc : ∀ p ∈ first :: rest, p.ok) :
    ∃ (r : Run R) (ts : List String), main w = some r ∧
      r.fMtl = MtlItem.comment w.IFCOPENSHELL_VERSION
                :: ts.map (fun t => MtlItem.material (w.GetMaterial t)) ∧
      ts.Nodup ∧ ts.Sorted (· < ·) ∧
      ∀ t, t ∈ ts ↔ ∃ p ∈ first :: rest, ¬ isVoid p.obj ∧ p.obj.type = t := by
  obtain ⟨r, hr, _, _, hmtl, _⟩ := main_ok w first rest ha ho hm hi hc
  exact ⟨r, materialSet (first :: rest), hr, hmtl, nodup_materialSet _, sorted_materialSet _,
    mem_materialSet _⟩

/-- C4 at a concrete input: two walls and a space volume give one material. -/
theorem C4_material_file_witness :
    ∃ (r : Run Int) (ts : List String),
      main (worldOf ⟨wall, 30⟩ [⟨space, 60⟩, ⟨wall, 100⟩]) = some r ∧
      r.fMtl = MtlItem.comment "0.2.0" :: ts.map (fun t => MtlItem.material ("newmtl " ++ t ++ "\n")) ∧
      ts.Nodup ∧ ts.Sorted (· < ·) ∧
      ∀ t, t ∈ ts ↔ ∃ p ∈ [(⟨wall, 30⟩ : Delivered Int), ⟨space, 60⟩, ⟨wall, 100⟩],
        ¬ isVoid p.obj ∧ p.obj.type = t :=
  C4_material_file (worldOf ⟨wall, 30⟩ [⟨space, 60⟩, ⟨wall, 100⟩]) ⟨wall, 30⟩
    [⟨space, 60⟩, ⟨wall, 100⟩] rfl rfl rfl rfl (by decide)

/-- C6. `main` returns 1 whenever the argument count is not 2, an output file
does not open, or initialization fails; when none of the three holds and the
library keeps the contract, the run reaches the end of `main` and returns 0;
and every run that completes returns 1 exactly if one of the three holds. -/
theorem C6_exit_status {R : Type} (w : World R) :
    (w.fails → ∃ r, main w = some r ∧ r.status = 1) ∧
    (¬ w.fails → w.contract → ∃ r, main w = some r ∧ r.status = 0) ∧
    (∀ r, main w = some r → (r.status = 1 ↔ w.fails)) := by
  refine ⟨?_, main_of_not_fails w, ?_⟩
  · intro h
    obtain ⟨r, hr, hs, _⟩ := main_fails w h
    exact ⟨r, hr, hs⟩
  · intro r hr
    by_cases h : w.fails
    · obtain ⟨r1, hr1, hs, _⟩ := main_fails w h
      rw [hr] at hr1
      cases hr1
      exact ⟨fun _ => h, fun _ => hs⟩
    · have h0 := main_status_of_not_fails w h r hr
      constructor
      · intro h1
        rw [h0] at h1
        exact absurd h1 (by decide)
      · intro hf
        exact absurd hf h

/-- C6 at a concrete input: one wall, both files open. -/
theorem C6_exit_status_witness :
    ∃ r, main (worldOf ⟨wall, 100⟩ []) = some r ∧ r.status = 0 :=
  (C6_exit_status (worldOf ⟨wall, 100⟩ [])).2.1
    (by simp [World.fails, worldOf])
    (by
      intro first rest h
      simp only [worldOf, Option.some.injEq, Prod.mk.injEq] at h
      obtain ⟨h1, h2⟩ := h
      subst h1 h2
      decide)

/-- C7. When initialization fails, and likewise when an output file does not
open, the run returns a non-zero status and has written nothing to either
file: no header, no entity line, no material block. -/
theorem C7_no_output_on_failure {R : Type} (w : World R) :
    (w.init = none → ∃ r, main w = some r ∧ r.status ≠ 0 ∧ r.fObj = [] ∧ r.fMtl = []) ∧
    ((w.objOpens = false ∨ w.mtlOpens = false) →
      ∃ r, main w = some r ∧ r.status ≠ 0 ∧ r.fObj = [] ∧ r.fMtl = []) := by
  constructor
  · intro h
    obtain ⟨r, hr, hs, h1, h2⟩ := main_fails w (Or.inr (Or.inr h))
    exact ⟨r, hr, by rw [hs]; decide, h1, h2⟩
  · intro h
    obtain ⟨r, hr, hs, h1, h2⟩ := main_fails w (Or.inr (Or.inl h))
    exact ⟨r, hr, by rw [hs]; decide, h1, h2⟩

/-- C7 at a concrete input: a model the library cannot initialize from. -/
theorem C7_no_output_on_failure_witness :
    ∃ r, main unparseable = some r ∧ r.status ≠ 0 ∧ r.fObj = [] ∧ r.fMtl = [] :=
  (C7_no_output_on_failure unparseable).1 rfl

/-- C9. On a library that keeps the contract, whatever the state the loop
starts in (whatever was written before, whatever the material set and the
last progress value), the lines it appends to the mesh file for `x :: xs`
are `blocks (x :: xs)`, those for `y :: ys` are `blocks (y :: ys)`, and
those for the first sequence followed by the second are the former followed
by the latter; `blocks` is the concatenation of the blocks of the entities,
and the block of an entity is what `entityLines` computes from that entity
alone. -/
theorem C9_blocks_compose {R : Type} (x y : Delivered R) (xs ys : List (Delivered R))
    (hc : ∀ p ∈ (x :: xs) ++ (y :: ys), p.ok) :
    (∀ st, ∃ st1, doWhile st x xs = some st1 ∧ st1.fObj = st.fObj ++ blocks (x :: xs)) ∧
    (∀ st, ∃ st1, doWhile st y ys = some st1 ∧ st1.fObj = st.fObj ++ blocks (y :: ys)) ∧
    (∀ st, ∃ st1, doWhile st x (xs ++ y :: ys) = some st1 ∧
      st1.fObj = st.fObj ++ (blocks (x :: xs) ++ blocks (y :: ys))) ∧
    (∀ p ∈ (x :: xs) ++ (y :: ys), ¬ isVoid p.obj → entityLines p.obj = some (blockOf p.obj)) := by
  have hx : ∀ p ∈ x :: xs, p.ok := fun p hp => hc p (List.mem_append_left _ hp)
  have hy : ∀ p ∈ y :: ys, p.ok := fun p hp => hc p (List.mem_append_right _ hp)
  refine ⟨?_, ?_, ?_, ?_⟩
  · intro st
    exact ⟨_, doWhile_eq_foldl xs st x hx, foldl_stepState_fObj _ _⟩
  · intro st
    exact ⟨_, doWhile_eq_foldl ys st y hy, foldl_stepState_fObj _ _⟩
  · intro st
    refine ⟨_, doWhile_eq_foldl (xs ++ y :: ys) st x hc, ?_⟩
    rw [foldl_stepState_fObj, ← blocks_append]
    rfl
  · intro p hp hv
    exact entityLines_eq_blockOf p.obj hv (hc p hp).1

/-- C9 at a concrete input: a wall, then a slab and a wall. -/
theorem C9_blocks_compose_witness :
    ∃ st1, doWhile startState ⟨wall, 10⟩ ([] ++ ⟨twoNormals, 50⟩ :: [⟨wall, 90⟩]) = some st1 ∧
      st1.fObj = startState.fObj
        ++ (blocks [⟨wall, 10⟩] ++ blocks [(⟨twoNormals, 50⟩ : Delivered Int), ⟨wall, 90⟩]) :=
  (C9_blocks_compose ⟨wall, 10⟩ ⟨twoNormals, 50⟩ [] [⟨wall, 90⟩] (by decide)).2.2.1 startState

/-- C5. For every entity whose mesh keeps the invariant of the mesh type
(vertex and normal sequences of equal length) and whose vertex and normal
sequences have lengths that are multiples of 3: the vertex loop writes as
many `v` lines as the length of the vertex sequence divided by 3, the normal
loop as many `vn` lines as the length of the normal sequence divided by 3,
these are the `v` and `vn` lines of the block, the two numbers are equal, and
the block is written when the face sequence has stride 3 too. -/
theorem C5_line_counts {R : Type} (o : IfcGeomObject R)
    (h1 : o.mesh.verts.length % 3 = 0) (h2 : o.mesh.normals.length % 3 = 0)
    (hinv : meshInvariant o.mesh) :
    (∃ vs ns, writeVerts o.mesh.verts = some vs ∧ writeNormals o.mesh.normals = some ns ∧
      vs.length = o.mesh.verts.length / 3 ∧ ns.length = o.mesh.normals.length / 3 ∧
      vs.length = ns.length) ∧
    (∀ ls, entityLines o = some ls →
      ls.countP Line.isV = o.mesh.verts.length / 3 ∧
      ls.countP Line.isVn = o.mesh.normals.length / 3 ∧
      ls.countP Line.isV = ls.countP Line.isVn) ∧
    (o.mesh.faces.length % 3 = 0 → ∃ ls, entityLines o = some ls) := by
  obtain ⟨vs, hv, hlv, _⟩ := writeVerts_spec o.mesh.verts h1
  obtain ⟨ns, hn, hln, _⟩ := writeNormals_spec o.mesh.normals h2
  have hlen : o.mesh.verts.length = o.mesh.normals.length := hinv
  refine ⟨⟨vs, ns, hv, hn, hlv, hln, by rw [hlv, hln, hlen]⟩, ?_,
    fun h3 => entityLines_total o ⟨h1, h2, h3⟩⟩
  intro ls hls
  obtain ⟨c1, c2⟩ := block_line_counts o h1 h2 ls hls
  exact ⟨c1, c2, by rw [c1, c2, hlen]⟩

/-- C5 at a concrete input: the wall, with 4 vertices and 4 normals. -/
theorem C5_line_counts_witness :
    ∃ ls, entityLines wall = some ls ∧
      ls.countP Line.isV = wall.mesh.verts.length / 3 ∧
      ls.countP Line.isVn = wall.mesh.normals.length / 3 ∧
      ls.countP Line.isV = ls.countP Line.isVn := by
  obtain ⟨_, h, hex⟩ := C5_line_counts wall (by decide) (by decide) (by decide)
  obtain ⟨ls, hls⟩ := hex (by decide)
  exact ⟨ls, hls, h ls hls⟩

/-- C8 as stated fails: with library percentages 100 and then 0 (both within
0..100) the values drawn are 50 and then 0, which is not non-decreasing. -/
theorem C8_drawn_values_decrease :
    (∀ p ∈ [(⟨wall, 100⟩ : Delivered Int), ⟨wall, 0⟩], p.ok) ∧
      (main (worldOf ⟨wall, 100⟩ [⟨wall, 0⟩])).map (fun r => bars r.cout) = some [50, 0] ∧
      ¬ List.Pairwise (· ≤ ·) ([50, 0] : List Int) := by
  decide

/-- C8 (amended). In a run that reaches the loop, on a library that keeps the
contract: the values drawn are obtained from the values computed for the
exported entities, each the library percentage divided by 2, by keeping a
value exactly if it differs from the one computed for the previous exported
entity (-1 before the first); the first exported entity always draws; no two
consecutive values drawn are equal; and if the library percentages read are
non-decreasing, the values drawn are strictly increasing. -/
theorem C8_progress_indicator {R : Type} (w : World R) (first : Delivered R)
    (rest : List (Delivered R)) (ha : w.argc = 2) (ho : w.objOpens = true)
    (hm : w.mtlOpens = true) (hi : w.init = some (first, rest))
    (hc : ∀ p ∈ first :: rest, p.ok) :
    ∃ r, main w = some r ∧
      bars r.cout = redraws (-1) (progressValues (first :: rest)) ∧
      (∀ p ps, exported (first :: rest) = p :: ps →
        (bars r.cout).head? = some (Int.tdiv p.Progress 2)) ∧
      List.Chain' (· ≠ ·) (bars r.cout) ∧
      (((exported (first :: rest)).map (fun p => p.Progress)).Pairwise (· ≤ ·) →
        (bars r.cout).Pairwise (· < ·)) := by
  obtain ⟨r, hr, _, _, _, hb⟩ := main_ok w first rest ha ho hm hi hc
  refine ⟨r, hr, hb, ?_, ?_, ?_⟩
  · intro p ps hp
    have hok : p.ok := pos_ok_of_mem_exported _ hc p (by rw [hp]; simp)
    have hrange := tdiv_two_range p.Progress hok.2.1 hok.2.2
    have hne : (-1 : Int) ≠ Int.tdiv p.Progress 2 := by omega
    rw [hb]
    simp [progressValues, hp, redraws, hne]
  · rw [hb]
    have hch : List.Chain' (· ≠ ·) ((-1 : Int) :: redraws (-1) (progressValues (first :: rest))) :=
      redraws_chain (progressValues (first :: rest)) (-1)
    exact hch.tail
  · intro hs
    rw [hb]
    exact (redraws_increasing _ (-1) (progressValues_sorted _ hc hs)
      (progressValues_nonneg _ hc)).1

/-- C8 (amended) at a concrete input: three walls at 10, 11 and 100 percent. -/
theorem C8_progress_indicator_witness :
    ∃ r, main (worldOf ⟨wall, 10⟩ [⟨wall, 11⟩, ⟨wall, 100⟩]) = some r ∧
      bars r.cout = redraws (-1)
        (progressValues [(⟨wall, 10⟩ : Delivered Int), ⟨wall, 11⟩, ⟨wall, 100⟩]) ∧
      (∀ p ps, exported [(⟨wall, 10⟩ : Delivered Int), ⟨wall, 11⟩, ⟨wall, 100⟩] = p :: ps →
        (bars r.cout).head? = some (Int.tdiv p.Progress 2)) ∧
      List.Chain' (· ≠ ·) (bars r.cout) ∧
      (((exported [(⟨wall, 10⟩ : Delivered Int), ⟨wall, 11⟩, ⟨wall, 100⟩]).map
          (fun p => p.Progress)).Pairwise (· ≤ ·) →
        (bars r.cout).Pairwise (· < ·)) :=
  C8_progress_indicator (worldOf ⟨wall, 10⟩ [⟨wall, 11⟩, ⟨wall, 100⟩]) ⟨wall, 10⟩
    [⟨wall, 11⟩, ⟨wall, 100⟩] rfl rfl rfl rfl (by decide)

/-- C3. For every entity whose face-index sequence has a length that is a
multiple of 3, with `n` the length of its vertex sequence divided by 3, and
whose indices `a` have a difference `a - n` that is a value of `int`: there
is one `f` line per group of three consecutive face indices, in sequence
order, the line of the group `(a, b, c)` being
`f (a-n)//(a-n) (b-n)//(b-n) (c-n)//(c-n)`; these lines close the block that
the loop body writes, which has no `f` line before them; in every `f` line of
the block the two integers of each corner are equal; and the block is written
when the vertex and normal sequences have stride 3 too. -/
theorem C3_face_lines {R : Type} (o : IfcGeomObject R) (h : o.mesh.faces.length % 3 = 0)
    (hb : ∀ a ∈ o.mesh.faces, fitsInt (a - ((o.mesh.verts.length / 3 : Nat) : Int))) :
    ∃ fs : List (Line R),
      fs.length = o.mesh.faces.length / 3 ∧
      (∀ k, fs[k]? = (nthTriple o.mesh.faces k).map (fun t =>
        Line.f (t.1 - ((o.mesh.verts.length / 3 : Nat) : Int))
          (t.1 - ((o.mesh.verts.length / 3 : Nat) : Int))
          (t.2.1 - ((o.mesh.verts.length / 3 : Nat) : Int))
          (t.2.1 - ((o.mesh.verts.length / 3 : Nat) : Int))
          (t.2.2 - ((o.mesh.verts.length / 3 : Nat) : Int))
          (t.2.2 - ((o.mesh.verts.length / 3 : Nat) : Int)))) ∧
      (∀ (fmt : R → String) (a b c n : Int),
        (Line.f (a - n) (a - n) (b - n) (b - n) (c - n) (c - n) : Line R).render fmt
          = "f " ++ toString (a - n) ++ "//" ++ toString (a - n)
            ++ " " ++ toString (b - n) ++ "//" ++ toString (b - n)
            ++ " " ++ toString (c - n) ++ "//" ++ toString (c - n)) ∧
      (∀ ls, entityLines o = some ls →
        ∃ front, ls = front ++ fs ∧ (∀ l ∈ front, l.isF = false) ∧
          ∀ p1 n1 p2 n2 p3 n3, Line.f p1 n1 p2 n2 p3 n3 ∈ ls →
            p1 = n1 ∧ p2 = n2 ∧ p3 = n3) ∧
      (o.mesh.verts.length % 3 = 0 → o.mesh.normals.length % 3 = 0 →
        ∃ ls, entityLines o = some ls) := by
  obtain ⟨fs, hf, hlen, hk⟩ := writeFaces_spec (R := R) (vcount o) o.mesh.faces h
  refine ⟨fs, hlen, ?_, fun _ _ _ _ _ => rfl, ?_,
    fun h1 h2 => entityLines_total o ⟨h1, h2, h⟩⟩
  · intro k
    rw [hk k]
    cases ht : nthTriple o.mesh.faces k with
    | none => rfl
    | some t =>
        obtain ⟨a, b, c⟩ := t
        obtain ⟨ha, hb1, hc⟩ := nthTriple_mem _ _ _ _ _ ht
        have ea := intSub_exact a (vcount o) (hb a ha)
        have eb := intSub_exact b (vcount o) (hb b hb1)
        have ec := intSub_exact c (vcount o) (hb c hc)
        simp only [Option.map_some', ea, eb, ec]
        rfl
  · intro ls hls
    obtain ⟨vs, ns, fs1, hv, hn, hf1, hshape⟩ := entityLines_inv o ls hls
    rw [hf] at hf1
    cases hf1
    have hfront := front_no_f o vs ns hv hn
    refine ⟨_, hshape, hfront, ?_⟩
    intro p1 n1 p2 n2 p3 n3 hmem
    rw [hshape] at hmem
    rcases List.mem_append.mp hmem with hmem | hmem
    · have := hfront _ hmem
      simp [Line.isF] at this
    · obtain ⟨a, b, c, _, _, _, he⟩ := writeFaces_mem _ _ fs hf _ hmem
      simp only [Line.f.injEq] at he
      obtain ⟨e1, e2, e3, e4, e5, e6⟩ := he
      exact ⟨by rw [e1, e2], by rw [e3, e4], by rw [e5, e6]⟩

/-- C3 at a concrete input: the two triangles (0, 1, 2) and (0, 2, 3) of the
wall, which has 4 vertices, are written with the indices (-4, -3, -2) and
(-4, -2, -1), each twice. -/
theorem C3_face_lines_witness :
    ∃ front : List (Line Int), entityLines wall
      = some (front ++ [Line.f (-4) (-4) (-3) (-3) (-2) (-2),
                        Line.f (-4) (-4) (-2) (-2) (-1) (-1)]) := by
  obtain ⟨fs, hlen, hk, _, hblock, hex⟩ := C3_face_lines wall (by decide) (by decide)
  obtain ⟨ls, hls⟩ := hex (by decide) (by decide)
  obtain ⟨front, hfront, _⟩ := hblock ls hls
  have h0 := hk 0
  have h1 := hk 1
  have hfs : fs = [Line.f (-4) (-4) (-3) (-3) (-2) (-2), Line.f (-4) (-4) (-2) (-2) (-1) (-1)] := by
    match fs, hlen, h0, h1 with
    | [l0, l1], _, h0, h1 =>
        simp only [List.getElem?_cons_zero, List.getElem?_cons_succ] at h0 h1
        have e0 : l0 = Line.f (-4) (-4) (-3) (-3) (-2) (-2) := Option.some.inj h0
        have e1 : l1 = Line.f (-4) (-4) (-2) (-2) (-1) (-1) := Option.some.inj h1
        rw [e0, e1]
  exact ⟨front, by rw [hls, hfront, hfs]⟩

/-- The mesh file of a run that reaches the loop, on a library that keeps the
contract: header comment, `mtllib` line, then the blocks of the delivered
entities in order, each block with its lines in the order the loop body
writes them. -/
theorem mesh_file_structure {R : Type} (w : World R) (first : Delivered R)
    (rest : List (Delivered R)) (ha : w.argc = 2) (ho : w.objOpens = true)
    (hm : w.mtlOpens = true) (hi : w.init = some (first, rest))
    (hc : ∀ p ∈ first :: rest, p.ok) :
    ∃ r, main w = some r ∧
      r.fObj = Line.comment w.IFCOPENSHELL_VERSION :: Line.mtllib (w.argv1 ++ ".mtl")
                :: blocks (first :: rest) ∧
      (∀ p ∈ first :: rest, isVoid p.obj → blockOf p.obj = []) ∧
      (∀ p ∈ first :: rest, ¬ isVoid p.obj →
        ∃ vs ns fs, entityLines p.obj = some (blockOf p.obj) ∧
          blockOf p.obj
            = [Line.g (if p.obj.name = "" then p.obj.guid else p.obj.name), Line.s1,
                Line.usemtl p.obj.type] ++ vs ++ ns ++ fs ∧
          vs.length = p.obj.mesh.verts.length / 3 ∧
          (∀ k, vs[k]? = (nthTriple p.obj.mesh.verts k).map
            (fun t => Line.v t.1 t.2.1 t.2.2)) ∧
          ns.length = p.obj.mesh.normals.length / 3 ∧
          (∀ k, ns[k]? = (nthTriple p.obj.mesh.normals k).map
            (fun t => Line.vn t.1 t.2.1 t.2.2)) ∧
          fs.length = p.obj.mesh.faces.length / 3 ∧
          (∀ l ∈ fs, l.isF = true)) ∧
      (rest = [] → first.obj.type = "IfcWall" → first.obj.mesh.verts.length = 12 →
        first.obj.mesh.normals.length = 12 → first.obj.mesh.faces.length = 6 →
        r.fObj.countP Line.isG = 1 ∧ r.fObj.countP Line.isS = 1 ∧
        r.fObj.countP Line.isUsemtl = 1 ∧ r.fObj.countP Line.isV = 4 ∧
        r.fObj.countP Line.isVn = 4 ∧ r.fObj.countP Line.isF = 2 ∧
        ∀ t, Line.usemtl t ∈ r.fObj → t = "IfcWall") := by
  obtain ⟨r, hr, _, hobj, _, _⟩ := main_ok w first rest ha ho hm hi hc
  have hblock : ∀ p ∈ first :: rest, ¬ isVoid p.obj →
      ∃ vs ns fs, writeVerts p.obj.mesh.verts = some vs ∧
        writeNormals p.obj.mesh.normals = some ns ∧
        writeFaces (vcount p.obj) p.obj.mesh.faces = some fs ∧
        entityLines p.obj = some (blockOf p.obj) ∧
        blockOf p.obj
          = [Line.g (label p.obj), Line.s1, Line.usemtl p.obj.type] ++ vs ++ ns ++ fs := by
    intro p hp hv
    obtain ⟨vs, ns, fs, h1, h2, h3, hl⟩ := entityLines_shape p.obj (hc p hp).1
    have hb := blockOf_of_entityLines p.obj _ hv hl
    exact ⟨vs, ns, fs, h1, h2, h3, by rw [hb, hl], hb⟩
  refine ⟨r, hr, hobj, fun p _ hv => blockOf_void p.obj hv, ?_, ?_⟩
  · intro p hp hv
    obtain ⟨vs, ns, fs, h1, h2, h3, hl, hb⟩ := hblock p hp hv
    obtain ⟨vs1, e1, lv, kv⟩ := writeVerts_spec p.obj.mesh.verts (hc p hp).1.1
    obtain ⟨ns1, e2, ln, kn⟩ := writeNormals_spec p.obj.mesh.normals (hc p hp).1.2.1
    obtain ⟨fs1, e3, lf, _⟩ :=
      writeFaces_spec (R := R) (vcount p.obj) p.obj.mesh.faces (hc p hp).1.2.2
    rw [h1] at e1
    rw [h2] at e2
    rw [h3] at e3
    cases e1
    cases e2
    cases e3
    refine ⟨vs, ns, fs, hl, hb, lv, kv, ln, kn, lf, ?_⟩
    intro l hl
    obtain ⟨a, b, c, _, _, _, he⟩ := writeFaces_mem _ _ fs h3 l hl
    rw [he]
    rfl
  · intro hrest htype hlv hln hlf
    subst hrest
    have hv : ¬ isVoid first.obj := by
      unfold isVoid
      rw [htype]
      decide
    obtain ⟨vs, ns, fs, h1, h2, h3, _, hb⟩ := hblock first (by simp) hv
    obtain ⟨vs1, e1, lv, _⟩ := writeVerts_spec first.obj.mesh.verts (hc first (by simp)).1.1
    obtain ⟨ns1, e2, ln, _⟩ := writeNormals_spec first.obj.mesh.normals (hc first (by simp)).1.2.1
    obtain ⟨fs1, e3, lf, _⟩ :=
      writeFaces_spec (R := R) (vcount first.obj) first.obj.mesh.faces (hc first (by simp)).1.2.2
    rw [h1] at e1
    rw [h2] at e2
    rw [h3] at e3
    cases e1
    cases e2
    cases e3
    have hcnt := count_block (label first.obj) first.obj.type vs ns fs
      (writeVerts_mem _ vs h1) (writeNormals_mem _ ns h2)
      (fun l hl => by
        obtain ⟨a, b, c, _, _, _, he⟩ := writeFaces_mem _ _ fs h3 l hl
        exact ⟨_, _, _, _, _, _, he⟩)
    have hfile : r.fObj = Line.comment w.IFCOPENSHELL_VERSION :: Line.mtllib (w.argv1 ++ ".mtl")
        :: ([Line.g (label first.obj), Line.s1, Line.usemtl first.obj.type]
              ++ vs ++ ns ++ fs) := by
      rw [hobj]
      simp only [blocks, List.append_nil, hb]
    have hcons : ∀ (k : Line R → Bool) (ls : List (Line R)),
        k (Line.comment w.IFCOPENSHELL_VERSION) = false →
        k (Line.mtllib (w.argv1 ++ ".mtl")) = false →
        (Line.comment w.IFCOPENSHELL_VERSION :: Line.mtllib (w.argv1 ++ ".mtl") :: ls).countP k
          = ls.countP k := by
      intro k ls k1 k2
      simp [List.countP_cons, k1, k2]
    rw [hfile]
    refine ⟨?_, ?_, ?_, ?_, ?_, ?_, ?_⟩
    · rw [hcons _ _ rfl rfl, hcnt.1]
    · rw [hcons _ _ rfl rfl, hcnt.2.1]
    · rw [hcons _ _ rfl rfl, hcnt.2.2.1]
    · rw [hcons _ _ rfl rfl, hcnt.2.2.2.1, lv, hlv]
    · rw [hcons _ _ rfl rfl, hcnt.2.2.2.2.1, ln, hln]
    · rw [hcons _ _ rfl rfl, hcnt.2.2.2.2.2, lf, hlf]
    · intro t ht
      rw [List.mem_cons, List.mem_cons] at ht
      rcases ht with ht | ht | ht
      · cases ht
      · cases ht
      · rcases List.mem_append.mp ht with ht | ht
        · rcases List.mem_append.mp ht with ht | ht
          · rcases List.mem_append.mp ht with ht | ht
            · simp only [List.mem_cons, List.not_mem_nil, or_false, Line.usemtl.injEq] at ht
              rcases ht with ht | ht | ht
              · cases ht
              · cases ht
              · rw [ht, htype]
            · obtain ⟨x, y, z, he⟩ := writeVerts_mem _ vs h1 _ ht
              cases he
          · obtain ⟨x, y, z, he⟩ := writeNormals_mem _ ns h2 _ ht
            cases he
        · obtain ⟨a, b, c, _, _, _, he⟩ := writeFaces_mem _ _ fs h3 _ ht
          cases he

/-- The text of the `v` lines that hold the groups of three floats of a
sequence. -/
theorem v_text (xs : List Coord) (vs : List (Line Coord))
    (h : ∀ k, vs[k]? = (nthTriple xs k).map (fun t => Line.v t.1 t.2.1 t.2.2)) :
    ∀ k, (vs[k]?).map (Line.render fmtDouble)
      = (nthTriple xs k).map (fun t =>
          "v " ++ fmtDouble t.1 ++ " " ++ fmtDouble t.2.1 ++ " " ++ fmtDouble t.2.2) := by
  intro k
  rw [h k]
  cases nthTriple xs k with
  | none => rfl
  | some t => rfl

/-- The text of the `vn` lines that hold the groups of three floats of a
sequence. -/
theorem vn_text (xs : List Coord) (ns : List (Line Coord))
    (h : ∀ k, ns[k]? = (nthTriple xs k).map (fun t => Line.vn t.1 t.2.1 t.2.2)) :
    ∀ k, (ns[k]?).map (Line.render fmtDouble)
      = (nthTriple xs k).map (fun t =>
          "vn " ++ fmtDouble t.1 ++ " " ++ fmtDouble t.2.1 ++ " " ++ fmtDouble t.2.2) := by
  intro k
  rw [h k]
  cases nthTriple xs k with
  | none => rfl
  | some t => rfl

/-- C2 as stated fails: a vertex at x = 1234567 is written to the mesh file as
`1.23457e+06`, the text that the different value 1234570 is written as; the
value in the file is not the value of the mesh. -/
theorem C2_value_rounded :
    (main (worldOfD ⟨farWall, 100⟩ [])).map (fun r => r.fObj.map (Line.render fmtDouble))
        = some ["# File generated by IfcOpenShell 0.2.0", "mtllib model.ifc.mtl", "g Wall",
            "s 1", "usemtl IfcWall", "v 1.23457e+06 0 0", "vn 0 0 1"] ∧
      fmtDouble (Coord.ofNat 1234567) = fmtDouble (Coord.ofNat 1234570) ∧
      ¬ (Coord.ofNat 1234567).sameValue (Coord.ofNat 1234570) := by
  decide

/-- C2 (amended). In a run that reaches the loop, on a library that keeps the
contract, the mesh file is the header comment, the line
`mtllib <input path>.mtl`, and then the blocks of the delivered entities in
order. The block of a skipped entity is empty. The block of any other entity
is what the loop body writes for it, and is, in this order: `g <label>` with
the name as label if it is not empty and the guid otherwise, `s 1`,
`usemtl <type>`, one `v` line per group of three consecutive floats of the
vertex sequence, one `vn` line per group of three consecutive floats of the
normal sequence, and one `f` line per group of three consecutive integers of
the face sequence, each sequence in its original order. The text of a `v` or
`vn` line is the keyword followed by the three values of its group, each as
the stream writes a `double` at its default precision of six significant
digits. When the only entity delivered is of type `IfcWall` with 4 vertices,
4 normals and 2 triangles, the file has one `g`, one `s`, one `usemtl`, 4
`v`, 4 `vn` and 2 `f` lines, and its `usemtl` line is `usemtl IfcWall`. -/
theorem C2_mesh_file (w : World Coord) (first : Delivered Coord)
    (rest : List (Delivered Coord)) (ha : w.argc = 2) (ho : w.objOpens = true)
    (hm : w.mtlOpens = true) (hi : w.init = some (first, rest))
    (hc : ∀ p ∈ first :: rest, p.ok) :
    ∃ r, main w = some r ∧
      r.fObj = Line.comment w.IFCOPENSHELL_VERSION :: Line.mtllib (w.argv1 ++ ".mtl")
                :: blocks (first :: rest) ∧
      (Line.comment w.IFCOPENSHELL_VERSION : Line Coord).render fmtDouble
        = "# File generated by IfcOpenShell " ++ w.IFCOPENSHELL_VERSION ∧
      (Line.mtllib (w.argv1 ++ ".mtl") : Line Coord).render fmtDouble
        = "mtllib " ++ (w.argv1 ++ ".mtl") ∧
      (∀ p ∈ first :: rest, isVoid p.obj → blockOf p.obj = []) ∧
      (∀ p ∈ first :: rest, ¬ isVoid p.obj →
        ∃ vs ns fs, entityLines p.obj = some (blockOf p.obj) ∧
          blockOf p.obj
            = [Line.g (if p.obj.name = "" then p.obj.guid else p.obj.name), Line.s1,
                Line.usemtl p.obj.type] ++ vs ++ ns ++ fs ∧
          vs.length = p.obj.mesh.verts.length / 3 ∧
          (∀ k, vs[k]? = (nthTriple p.obj.mesh.verts k).map
            (fun t => Line.v t.1 t.2.1 t.2.2)) ∧
          (∀ k, (vs[k]?).map (Line.render fmtDouble)
            = (nthTriple p.obj.mesh.verts k).map (fun t =>
                "v " ++ fmtDouble t.1 ++ " " ++ fmtDouble t.2.1 ++ " " ++ fmtDouble t.2.2)) ∧
          ns.length = p.obj.mesh.normals.length / 3 ∧
          (∀ k, ns[k]? = (nthTriple p.obj.mesh.normals k).map
            (fun t => Line.vn t.1 t.2.1 t.2.2)) ∧
          (∀ k, (ns[k]?).map (Line.render fmtDouble)
            = (nthTriple p.obj.mesh.normals k).map (fun t =>
                "vn " ++ fmtDouble t.1 ++ " " ++ fmtDouble t.2.1 ++ " " ++ fmtDouble t.2.2)) ∧
          fs.length = p.obj.mesh.faces.length / 3 ∧
          (∀ l ∈ fs, l.isF = true)) ∧
      (rest = [] → first.obj.type = "IfcWall" → first.obj.mesh.verts.length = 12 →
        first.obj.mesh.normals.length = 12 → first.obj.mesh.faces.length = 6 →
        r.fObj.countP Line.isG = 1 ∧ r.fObj.countP Line.isS = 1 ∧
        r.fObj.countP Line.isUsemtl = 1 ∧ r.fObj.countP Line.isV = 4 ∧
        r.fObj.countP Line.isVn = 4 ∧ r.fObj.countP Line.isF = 2 ∧
        ∀ t, Line.usemtl t ∈ r.fObj → t = "IfcWall") := by
  obtain ⟨r, hr, hobj, hvoid, hblock, hwall⟩ :=
    mesh_file_structure w first rest ha ho hm hi hc
  refine ⟨r, hr, hobj, rfl, rfl, hvoid, ?_, hwall⟩
  intro p hp hv
  obtain ⟨vs, ns, fs, h1, h2, lv, kv, ln, kn, lf, hf⟩ := hblock p hp hv
  exact ⟨vs, ns, fs, h1, h2, lv, kv, v_text _ vs kv, ln, kn, vn_text _ ns kn, lf, hf⟩

/-- C2 (amended) at a concrete input: the wall alone, with the text of the
whole mesh file. -/
theorem C2_mesh_file_witness :
    ∃ r, main (worldOfD ⟨wallD, 100⟩ []) = some r ∧
      r.fObj.map (Line.render fmtDouble)
        = ["# File generated by IfcOpenShell 0.2.0", "mtllib model.ifc.mtl",
            "g 2O2Fr$t4X7Zf8NOew3FLOH", "s 1", "usemtl IfcWall",
            "v 0 0 0", "v 1 0 0", "v 1 1 0", "v 0 1 0",
            "vn 0 0 1", "vn 0 0 1", "vn 0 0 1", "vn 0 0 1",
            "f " ++ "-4//" ++ "-4 -3//" ++ "-3 -2//" ++ "-2",
            "f " ++ "-4//" ++ "-4 -2//" ++ "-2 -1//" ++ "-1"] ∧
      r.fObj.countP Line.isG = 1 ∧ r.fObj.countP Line.isS = 1 ∧
      r.fObj.countP Line.isUsemtl = 1 ∧ r.fObj.countP Line.isV = 4 ∧
      r.fObj.countP Line.isVn = 4 ∧ r.fObj.countP Line.isF = 2 ∧
      ∀ t, Line.usemtl t ∈ r.fObj → t = "IfcWall" := by
  obtain ⟨r, hr, hobj, _, _, _, _, h⟩ :=
    C2_mesh_file (worldOfD ⟨wallD, 100⟩ []) ⟨wallD, 100⟩ [] rfl rfl rfl rfl (by decide)
  refine ⟨r, hr, ?_, h rfl rfl rfl rfl rfl⟩
  rw [hobj]
  decide

/-- C10. For every entity with a stride-3 mesh whose face indices `i` all
satisfy `0 ≤ i < n`, with `n` the length of the vertex sequence divided by 3,
and whatever lines `before` precede its block in the file: the block is
written, and at every `f` line of the block each of the six integers written
is `i - n` for a face index `i` of the entity, lies in `-n .. -1`, denotes
under the relative-index rule, among the `v` lines written before that `f`
line, the `i`-th group of three floats of the entity's own vertex sequence,
and, when the entity has `n` normals, denotes among the `vn` lines written
before that `f` line the `i`-th group of three floats of its own normal
sequence. -/
theorem C10_relative_indices {R : Type} (o : IfcGeomObject R) (h : meshOk o.mesh)
    (hidx : ∀ i ∈ o.mesh.faces, 0 ≤ i ∧ i < vcount o) (before : List (Line R)) :
    ∃ ls, entityLines o = some ls ∧
      ∀ b1 b2 p1 n1 p2 n2 p3 n3, ls = b1 ++ Line.f p1 n1 p2 n2 p3 n3 :: b2 →
        ∀ idx ∈ [p1, n1, p2, n2, p3, n3],
          -(vcount o) ≤ idx ∧ idx ≤ -1 ∧
          ∃ i ∈ o.mesh.faces, idx = i - vcount o ∧
            (∃ t, nthTriple o.mesh.verts i.toNat = some t ∧
              relLookup (vOf (before ++ b1)) idx = some t) ∧
            (o.mesh.normals.length / 3 = o.mesh.verts.length / 3 →
              ∃ t, nthTriple o.mesh.normals i.toNat = some t ∧
                relLookup (vnOf (before ++ b1)) idx = some t) := by
  obtain ⟨vs, ns, fs, hv, hn, hf, hl⟩ := entityLines_shape o h
  refine ⟨_, hl, ?_⟩
  intro b1 b2 p1 n1 p2 n2 p3 n3 hsplit idx hmemidx
  have hfront : ∀ l ∈ [Line.g (label o), Line.s1, Line.usemtl o.type] ++ vs ++ ns,
      l.isF = false := by
    intro l hl
    rcases List.mem_append.mp hl with hl | hl
    · rcases List.mem_append.mp hl with hl | hl
      · simp only [List.mem_cons, List.not_mem_nil, or_false] at hl
        rcases hl with hl | hl | hl <;> rw [hl] <;> rfl
      · obtain ⟨x, y, z, rfl⟩ := writeVerts_mem _ vs hv l hl
        rfl
    · obtain ⟨x, y, z, rfl⟩ := writeNormals_mem _ ns hn l hl
      rfl
  obtain ⟨fs1, hb1, hfs⟩ := split_at_f _ fs b1 b2 (Line.f p1 n1 p2 n2 p3 n3) rfl hfront hsplit
  have hline : Line.f p1 n1 p2 n2 p3 n3 ∈ fs := by
    rw [hfs]
    simp
  have hfs1 : ∀ l ∈ fs1, ∃ q1 m1 q2 m2 q3 m3, l = Line.f q1 m1 q2 m2 q3 m3 := by
    intro l hl
    obtain ⟨a, b, c, _, _, _, he⟩ := writeFaces_mem _ _ fs hf l (by rw [hfs]; simp [hl])
    exact ⟨_, _, _, _, _, _, he⟩
  obtain ⟨a, b, c, ha, hb, hc, he⟩ := writeFaces_mem _ _ fs hf _ hline
  simp only [Line.f.injEq] at he
  obtain ⟨e1, e2, e3, e4, e5, e6⟩ := he
  have hi : ∃ i ∈ o.mesh.faces, idx = i - vcount o := by
    simp only [List.mem_cons, List.not_mem_nil, or_false] at hmemidx
    have sa := intSub_index a (vcount o) (hidx a ha).1 (hidx a ha).2
    have sb := intSub_index b (vcount o) (hidx b hb).1 (hidx b hb).2
    have sc := intSub_index c (vcount o) (hidx c hc).1 (hidx c hc).2
    rcases hmemidx with hx | hx | hx | hx | hx | hx
    · exact ⟨a, ha, by rw [hx, e1, sa]⟩
    · exact ⟨a, ha, by rw [hx, e2, sa]⟩
    · exact ⟨b, hb, by rw [hx, e3, sb]⟩
    · exact ⟨b, hb, by rw [hx, e4, sb]⟩
    · exact ⟨c, hc, by rw [hx, e5, sc]⟩
    · exact ⟨c, hc, by rw [hx, e6, sc]⟩
  obtain ⟨i, hifaces, hidxeq⟩ := hi
  have hr := hidx i hifaces
  have hseenV : vOf (before ++ b1) = vOf before ++ vOf vs := by
    rw [hb1, vOf_append, vOf_append, vOf_append, vOf_append]
    have z1 : vOf ns = [] := vOf_eq_nil ns (fun l hl => by
      obtain ⟨x, y, z, rfl⟩ := writeNormals_mem _ ns hn l hl
      rfl)
    have z2 : vOf fs1 = [] := vOf_eq_nil fs1 (fun l hl => by
      obtain ⟨q1, m1, q2, m2, q3, m3, rfl⟩ := hfs1 l hl
      rfl)
    rw [z1, z2]
    simp [vOf]
  have hseenN : vnOf (before ++ b1) = vnOf before ++ vnOf ns := by
    rw [hb1, vnOf_append, vnOf_append, vnOf_append, vnOf_append]
    have z1 : vnOf vs = [] := vnOf_eq_nil vs (fun l hl => by
      obtain ⟨x, y, z, rfl⟩ := writeVerts_mem _ vs hv l hl
      rfl)
    have z2 : vnOf fs1 = [] := vnOf_eq_nil fs1 (fun l hl => by
      obtain ⟨q1, m1, q2, m2, q3, m3, rfl⟩ := hfs1 l hl
      rfl)
    rw [z1, z2]
    simp [vnOf]
  obtain ⟨lenV, ptV⟩ := vOf_writeVerts o.mesh.verts vs h.1 hv
  obtain ⟨lenN, ptN⟩ := vnOf_writeNormals o.mesh.normals ns h.2.1 hn
  have hvc : vcount o = ((vOf vs).length : Int) := by
    rw [lenV]
    rfl
  refine ⟨by omega, by omega, i, hifaces, hidxeq, ?_, ?_⟩
  · have hlt : i.toNat < (vOf vs).length := by omega
    refine ⟨(vOf vs)[i.toNat], ?_, ?_⟩
    · rw [← ptV, List.getElem?_eq_getElem hlt]
    · rw [hseenV, hidxeq, hvc, relLookup_append _ _ i hr.1 (by omega),
        List.getElem?_eq_getElem hlt]
  · intro hnorm
    have hvcN : vcount o = ((vnOf ns).length : Int) := by
      rw [lenN, hnorm]
      rfl
    have hlt : i.toNat < (vnOf ns).length := by omega
    refine ⟨(vnOf ns)[i.toNat], ?_, ?_⟩
    · rw [← ptN, List.getElem?_eq_getElem hlt]
    · rw [hseenN, hidxeq, hvcN, relLookup_append _ _ i hr.1 (by omega),
        List.getElem?_eq_getElem hlt]

/-- C10 at a concrete input: the wall after a slab. -/
theorem C10_relative_indices_witness :
    ∃ ls, entityLines wall = some ls ∧
      ∀ b1 b2 p1 n1 p2 n2 p3 n3, ls = b1 ++ Line.f p1 n1 p2 n2 p3 n3 :: b2 →
        ∀ idx ∈ [p1, n1, p2, n2, p3, n3],
          -(vcount wall) ≤ idx ∧ idx ≤ -1 ∧
          ∃ i ∈ wall.mesh.faces, idx = i - vcount wall ∧
            (∃ t, nthTriple wall.mesh.verts i.toNat = some t ∧
              relLookup (vOf (blockOf twoNormals ++ b1)) idx = some t) ∧
            (wall.mesh.normals.length / 3 = wall.mesh.verts.length / 3 →
              ∃ t, nthTriple wall.mesh.normals i.toNat = some t ∧
                relLookup (vnOf (blockOf twoNormals ++ b1)) idx = some t) :=
  C10_relative_indices wall (by decide) (by decide) (blockOf twoNormals)

end IfcObj
